import Mathlib

/-!
# Verification of `flambe/search/search.py`

A shallow embedding of the hyperparameter-search scheduler implemented in
`src/flambe/search/search.py` (class `Search`, actor `RayAdapter`), together
with theorems settling the frozen claims about it.

Modelling conventions:
* Python strings used as identifiers (trial ids) and ray object ids are
  modelled as `Nat` tokens; dotted hyperparameter keys, where the character
  content matters, are modelled as `List Char`.
* Resource quantities (ray's CPU/GPU counts) are modelled as `Nat`; Python's
  floor division `//` on non-negative quantities is `Nat` division, except
  that division by zero raises `ZeroDivisionError` in Python, which is made
  explicit with an `Except` error.
* Python dictionaries that the code only indexes/updates are modelled as
  functions `Nat → Option α`; the `trials` dictionary, which the code
  iterates over, is modelled as an association list.
* Exceptions are modelled with `Except`: `KeyError`, `ZeroDivisionError` and
  the `ValueError` of the startup resource validation are the constructors of
  `RunError`.
* External collaborators (the `Algorithm`, ray's `wait`/`get`/
  `available_resources`) are modelled as per-iteration oracles supplied to
  the loop body.
-/

/-- Trial identifiers (Python: string keys of the `trials` dict). -/
abbrev TrialId := Nat

/-- Ray object ids (Python: `str(object_id)`), modelled as fresh naturals;
the source comments that "The ray object id is guarenteed to be unique". -/
abbrev ObjectId := Nat

/-- Metric values reported by a task (opaque scalar). -/
abbrev Metric := Int

/-- Search-space value/distribution descriptors (opaque). -/
abbrev Val := Int

/-- Faults surfaced from a worker (opaque payload). -/
abbrev Fault := Nat

/-- Exceptions that `Search.run` can raise:
`resourceExceeded` is the `ValueError` of the startup validation,
`keyError` a Python `KeyError` on a missing dict key,
`zeroDivision` a Python `ZeroDivisionError`. -/
inductive RunError where
  | resourceExceeded
  | keyError
  | zeroDivision
deriving DecidableEq, Repr

/- ### Dotted-key flattening (source lines 130 and 187)

Line 130 flattens tuple key paths with `".".join(k)`;
line 187 reconstructs them with `tuple(k.split('.'))`.
Strings are modelled as `List Char`. -/

/-- Python `".".join(segs)` on a list of segments (`String.intercalate "."`).  -/
def joinDot : List (List Char) → List Char
  | [] => []
  | [s] => s
  | s :: rest => s ++ '.' :: joinDot rest

/-- Python `s.split('.')` with a one-character separator: splitting the empty
string yields `[""]`, and a separator at either end yields empty segments. -/
def splitDot : List Char → List (List Char)
  | [] => [[]]
  | c :: cs =>
    if c = '.' then [] :: splitDot cs
    else
      match splitDot cs with
      | [] => [[c]]
      | h :: t => (c :: h) :: t

theorem splitDot_ne_nil (cs : List Char) : splitDot cs ≠ [] := by
  induction cs with
  | nil => simp [splitDot]
  | cons c cs ih =>
    simp only [splitDot]
    by_cases h : c = '.'
    · simp [h]
    · simp only [if_neg h]
      cases hs : splitDot cs with
      | nil => simp
      | cons h t => simp

theorem splitDot_no_dot {a : List Char} (h : ('.' : Char) ∉ a) :
    splitDot a = [a] := by
  induction a with
  | nil => rfl
  | cons c cs ih =>
    simp only [List.mem_cons, not_or] at h
    have hc : c ≠ '.' := fun hcc => h.1 hcc.symm
    simp only [splitDot, if_neg hc]
    rw [ih h.2]

theorem splitDot_append_dot {a : List Char} (t : List Char)
    (h : ('.' : Char) ∉ a) :
    splitDot (a ++ '.' :: t) = a :: splitDot t := by
  induction a with
  | nil => simp [splitDot]
  | cons c cs ih =>
    simp only [List.mem_cons, not_or] at h
    have hc : c ≠ '.' := fun hcc => h.1 hcc.symm
    have hih := ih h.2
    simp only [List.cons_append, splitDot, if_neg hc, List.append_eq, hih]

/-- Every segment produced by `splitDot` is free of the separator. -/
theorem splitDot_sep_not_mem (cs : List Char) :
    ∀ s ∈ splitDot cs, ('.' : Char) ∉ s := by
  induction cs with
  | nil =>
    intro s hs
    simp [splitDot] at hs
    simp [hs]
  | cons c cs ih =>
    intro s hs
    simp only [splitDot] at hs
    by_cases hc : c = '.'
    · simp only [if_pos hc, List.mem_cons] at hs
      rcases hs with h | h
      · simp [h]
      · exact ih s h
    · simp only [if_neg hc] at hs
      cases hsplit : splitDot cs with
      | nil => exact absurd hsplit (splitDot_ne_nil cs)
      | cons h t =>
        rw [hsplit] at hs
        simp only [List.mem_cons] at hs
        rcases hs with h1 | h2
        · subst h1
          intro hmem
          simp only [List.mem_cons] at hmem
          rcases hmem with h' | h'
          · exact hc h'.symm
          · exact ih h (by simp [hsplit]) h'
        · exact ih s (by simp [hsplit, h2])

theorem splitDot_joinDot {segs : List (List Char)} (hne : segs ≠ [])
    (h : ∀ s ∈ segs, ('.' : Char) ∉ s) :
    splitDot (joinDot segs) = segs := by
  induction segs with
  | nil => exact absurd rfl hne
  | cons s rest ih =>
    cases rest with
    | nil =>
      simp only [joinDot]
      exact splitDot_no_dot (h s (by simp))
    | cons s2 rest2 =>
      have hstep : joinDot (s :: s2 :: rest2) = s ++ '.' :: joinDot (s2 :: rest2) := rfl
      rw [hstep, splitDot_append_dot _ (h s (by simp))]
      rw [ih (by simp) (fun x hx => h x (by simp [hx]))]

/-- C9 (counterexample): the claim quantifies over every hyperparameter key
path; the empty key path has no segment containing the separator, yet joining
it gives the empty string, which Python splits back to `[""]`, not to the
empty sequence.  So the round-trip also fails on a separator-free path. -/
theorem C9_counterexample :
    (∀ s ∈ ([] : List (List Char)), ('.' : Char) ∉ s) ∧
      splitDot (joinDot ([] : List (List Char))) ≠ ([] : List (List Char)) := by
  constructor
  · intro s hs
    simp at hs
  · intro h
    have : ([[]] : List (List Char)) = [] := h
    simp at this

/-- C9 (amended): for every *nonempty* hyperparameter key path, splitting the
joined key (line 187's `k.split('.')` applied to line 130's `".".join(k)`)
recovers the original segment sequence exactly when no segment contains the
separator `'.'`. -/
theorem C9_joinDot_splitDot (segs : List (List Char)) (hne : segs ≠ []) :
    splitDot (joinDot segs) = segs ↔ ∀ s ∈ segs, ('.' : Char) ∉ s := by
  constructor
  · intro h s hs
    rw [← h] at hs
    exact splitDot_sep_not_mem (joinDot segs) s hs
  · exact splitDot_joinDot hne

/-- C9 witness: the amended theorem applied at the concrete two-segment path
`["a", "b"]`, which round-trips through `"a.b"`. -/
theorem C9_joinDot_splitDot_witness :
    ([['a'], ['b']] : List (List Char)) ≠ [] ∧
      (splitDot (joinDot [['a'], ['b']]) = [['a'], ['b']] ↔
        ∀ s ∈ ([['a'], ['b']] : List (List Char)), ('.' : Char) ∉ s) :=
  ⟨by decide, C9_joinDot_splitDot [['a'], ['b']] (by decide)⟩

/- ### Trial state machine -/

/-- Trial statuses (spec section 4.1). -/
inductive Status where
  | created
  | resuming
  | running
  | paused
  | hasResult
  | terminated
  | error
deriving DecidableEq, Repr

/-- Modelled from the spec: the `Trial` class (`flambe/search/trial.py` is not
under `src/`): per-trial status, accumulated best metric (nullable), and the
mapping from dotted hyperparameter key to assigned value (spec section 3).
`search.py` only calls its trivial status setters/getters, defined below. -/
structure Trial where
  status : Status
  best_metric : Option Metric
  parameters : List (List Char × Val)
deriving Repr

def Trial.is_created (t : Trial) : Bool := t.status = Status.created
def Trial.is_resuming (t : Trial) : Bool := t.status = Status.resuming
def Trial.is_running (t : Trial) : Bool := t.status = Status.running
def Trial.is_paused (t : Trial) : Bool := t.status = Status.paused
def Trial.is_terminated (t : Trial) : Bool := t.status = Status.terminated
def Trial.is_error (t : Trial) : Bool := t.status = Status.error
def Trial.set_resume (t : Trial) : Trial := { t with status := Status.resuming }
def Trial.set_running (t : Trial) : Trial := { t with status := Status.running }
def Trial.set_has_result (t : Trial) : Trial := { t with status := Status.hasResult }
def Trial.set_terminated (t : Trial) : Trial := { t with status := Status.terminated }
def Trial.set_error (t : Trial) : Trial := { t with status := Status.error }
/-- Modelled from the spec: recording a metric overwrites the best-so-far
("policy: overwrite with latest", spec section 4.3 step 2). -/
def Trial.set_metric (t : Trial) (m : Option Metric) : Trial :=
  { t with best_metric := m }

/- ### Worker execution protocol: `RayAdapter` (source lines 18-46) -/

/-- Modelled from the spec: the `Searchable` capability
(`flambe/search/protocol.py` is not under `src/`): a task that can advance one
unit of work, reporting a continue flag, and report its current metric (spec
sections 4.2 and 6).  The task's internal progress is a step counter `state`;
advancing or reading the metric may fault, which propagates to the caller. -/
structure SearchableT where
  state : Nat
  stepFn : Nat → Except Fault Bool
  metricFn : Nat → Except Fault (Option Metric)

/-- The object materialized by calling the schema (`self.schema()`), which
either satisfies the `Searchable` capability (`isinstance` check, line 38) or
does not. -/
inductive MatObj where
  | notSearchable
  | searchable (s : SearchableT)

/-- State of a `RayAdapter` actor (lines 22-32): the task schema (modelled by
the object that calling it produces, or the fault that materialization
raises), the lazily materialized task (`self.searchable`, initially `None`),
and the checkpoint handle (modelled by the list of task states written through
it, in order; `Checkpoint.set` appends). -/
structure RayAdapter where
  schema : Except Fault MatObj
  searchable : Option MatObj
  checkpoint : List MatObj

/-- Lines 40-43: advance the task one unit of work (`searchable.step`), read
the current metric (`searchable.metric`), persist the task state through the
checkpoint handle (`checkpoint.set`), and return `(continue_, metric)`.  Any
fault short-circuits: a fault in `metric` means no checkpoint write.  The
actor state (with any mutations made before the fault) survives, since the
exception propagates through ray while the actor lives on. -/
def runTask (a : RayAdapter) (s : SearchableT) :
    RayAdapter × Except Fault (Bool × Option Metric) :=
  match s.stepFn s.state with
  | .error f => (a, .error f)
  | .ok continue_ =>
    let s' : SearchableT := { s with state := s.state + 1 }
    let a1 := { a with searchable := some (MatObj.searchable s') }
    match s'.metricFn s'.state with
    | .error f => (a1, .error f)
    | .ok metric =>
      ({ a1 with checkpoint := a1.checkpoint ++ [MatObj.searchable s'] },
        .ok (continue_, metric))

/-- `RayAdapter.step` (lines 34-43).  On the first invocation the task object
is materialized from the schema and stored in `self.searchable` *before* the
`isinstance(self.searchable, Searchable)` check; a capability mismatch
returns `(False, None)` without raising.  On later invocations with a
non-`Searchable` stored object, calling `.step` on it raises
(`AttributeError`, modelled as a distinguished fault). -/
def attributeFault : Fault := 0

def RayAdapter.step (a : RayAdapter) :
    RayAdapter × Except Fault (Bool × Option Metric) :=
  match a.searchable with
  | none =>
    match a.schema with
    | .error f => (a, .error f)
    | .ok obj =>
      let a1 := { a with searchable := some obj }
      match obj with
      | .notSearchable => (a1, .ok (false, none))
      | .searchable s => runTask a1 s
  | some obj =>
    match obj with
    | .notSearchable => (a, .error attributeFault)
    | .searchable s => runTask a s

/-- C3: on the first invocation of the worker's `step()` (no task
materialized yet), if the schema materializes an object that does not satisfy
the `Searchable` capability, `step()` returns `(continue = false, metric =
none)` as an ordinary (non-fault) result, with no checkpoint write; the
materialized object is stored. -/
theorem C3_step_capability_mismatch (a : RayAdapter)
    (h1 : a.searchable = none) (h2 : a.schema = Except.ok MatObj.notSearchable) :
    RayAdapter.step a =
      ({ a with searchable := some MatObj.notSearchable }, Except.ok (false, none)) := by
  simp [RayAdapter.step, h1, h2]

/-- C3 witness: the theorem applied to a fresh adapter over a
non-`Searchable` schema. -/
theorem C3_step_capability_mismatch_witness :
    (RayAdapter.mk (Except.ok MatObj.notSearchable) none []).searchable = none ∧
      RayAdapter.step (RayAdapter.mk (Except.ok MatObj.notSearchable) none []) =
        (RayAdapter.mk (Except.ok MatObj.notSearchable) (some MatObj.notSearchable) [],
          Except.ok (false, none)) :=
  ⟨rfl, C3_step_capability_mismatch _ rfl rfl⟩

/-- C4: stepping a capability-satisfying task: when the task's advance
succeeds with continuation flag `continue_` (for *any* flag value, `true` or
`false`), then
(i) if the metric read succeeds, the step returns exactly
`(continue_, metric)` and the advanced task state is appended to the
checkpoint — the write is unconditional on the flag, so the final state is
durable; and
(ii) if the metric read faults, the fault propagates and *no* checkpoint
write happens — the write comes after both the advance and the metric read. -/
theorem C4_step_checkpoint (a : RayAdapter) (s : SearchableT) (continue_ : Bool)
    (h1 : a.searchable = some (MatObj.searchable s))
    (h2 : s.stepFn s.state = Except.ok continue_) :
    (∀ metric, s.metricFn (s.state + 1) = Except.ok metric →
      RayAdapter.step a =
        ({ a with
            searchable := some (MatObj.searchable { s with state := s.state + 1 }),
            checkpoint := a.checkpoint ++ [MatObj.searchable { s with state := s.state + 1 }] },
          Except.ok (continue_, metric))) ∧
    (∀ f, s.metricFn (s.state + 1) = Except.error f →
      RayAdapter.step a =
        ({ a with
            searchable := some (MatObj.searchable { s with state := s.state + 1 }) },
          Except.error f)) := by
  constructor
  · intro metric h3
    simp [RayAdapter.step, runTask, h1, h2, h3]
  · intro f h3
    simp [RayAdapter.step, runTask, h1, h2, h3]

/-- C4 witness: the theorem applied to a task whose advance reports
`continue = false` and whose metric read succeeds: the checkpoint is written
even though the task reported stop. -/
theorem C4_step_checkpoint_witness :
    (RayAdapter.mk (Except.ok MatObj.notSearchable)
        (some (MatObj.searchable (SearchableT.mk 0 (fun _ => Except.ok false)
          (fun _ => Except.ok (some 7))))) []).searchable =
      some (MatObj.searchable (SearchableT.mk 0 (fun _ => Except.ok false)
        (fun _ => Except.ok (some 7)))) ∧
    (SearchableT.mk 0 (fun _ => Except.ok false)
        (fun _ => Except.ok (some 7))).stepFn 0 = Except.ok false ∧
    RayAdapter.step (RayAdapter.mk (Except.ok MatObj.notSearchable)
        (some (MatObj.searchable (SearchableT.mk 0 (fun _ => Except.ok false)
          (fun _ => Except.ok (some 7))))) []) =
      (RayAdapter.mk (Except.ok MatObj.notSearchable)
        (some (MatObj.searchable (SearchableT.mk 1 (fun _ => Except.ok false)
          (fun _ => Except.ok (some 7)))))
        [MatObj.searchable (SearchableT.mk 1 (fun _ => Except.ok false)
          (fun _ => Except.ok (some 7)))],
        Except.ok (false, some 7)) :=
  ⟨rfl, rfl,
    (C4_step_checkpoint _ _ false rfl rfl).1 (some 7) rfl⟩

/- ### Scheduler state (source lines 101-230) -/

/-- The task schema: the search space extracted from it
(`extract_search_space()`, a dict from tuple key path to distribution
descriptor, external to `search.py`) plus the parameter binding applied by
`set_from_search_space` (line 189). -/
structure Schema where
  space : List (List (List Char) × Val)
  bound : Option (List (List (List Char) × Val))
deriving DecidableEq, Repr

/-- `schema.set_from_search_space(space)` (line 189): bind the reconstructed
parameter tree to the (deep-copied) schema. -/
def Schema.set_from_search_space (s : Schema)
    (sp : List (List (List Char) × Val)) : Schema :=
  { s with bound := some sp }

/-- Line 130: the dotted flattening of the extracted search space passed to
`Algorithm.initialize` — `dict((".".join(k), v) for k, v in search_space)`. -/
def flattenSpace (s : Schema) : List (List Char × Val) :=
  s.space.map fun p => (joinDot p.1, p.2)

/-- A checkpoint handle (lines 196-200): its path is derived from the trial
id (`os.path.join(env.output_path, trial_id)`); host and user are external
environment data, omitted. -/
structure Checkpoint where
  path : TrialId
deriving DecidableEq, Repr

/-- A remote `RayAdapter` actor handle (lines 202-209), identified by its
construction arguments (the bound schema copy and the checkpoint; the cloned
environment is external environment data, omitted). -/
structure ActorH where
  schemaArg : Schema
  checkpointArg : Checkpoint
deriving DecidableEq, Repr

/-- One entry of the scheduler-private `state` dict (lines 193-209): keys
`'schema'`, `'checkpoint'`, `'actor'`.  Only `'actor'` is ever deleted
(line 184), so it is the only `Option` field. -/
structure RunStateEntry where
  schema : Schema
  checkpoint : Checkpoint
  actor : Option ActorH
deriving DecidableEq, Repr

/-- Environment: only the `debug` flag influences control flow in `run`
(output path and cluster coordinates are opaque). -/
structure EnvR where
  debug : Bool
deriving DecidableEq, Repr

/-- Functional update of a dictionary modelled as `Nat → Option α`. -/
def updMap {α : Type} (f : Nat → Option α) (k : Nat) (v : Option α) :
    Nat → Option α :=
  fun k' => if k' = k then v else f k'

theorem updMap_self {a : Type} (f : Nat → Option a) (k : Nat)
    (v : Option a) : updMap f k v k = v := by
  simp [updMap]

theorem updMap_ne {a : Type} (f : Nat → Option a) (k : Nat) (v : Option a)
    {k' : Nat} (h : k' ≠ k) : updMap f k v k' = f k' := by
  simp [updMap, h]

/-- Lookup in the `trials` dict (an association list; Python dict keys are
unique, kept as a `Nodup` invariant). -/
def lookupTr (ts : List (TrialId × Trial)) (tid : TrialId) : Option Trial :=
  (ts.find? (fun p => p.1 = tid)).map (·.2)

/-- In-place mutation of the trial object stored under `tid`
(`trials[trial_id]` is mutated through its methods in lines 154-158). -/
def setTr (ts : List (TrialId × Trial)) (tid : TrialId) (tr' : Trial) :
    List (TrialId × Trial) :=
  ts.map fun p => if p.1 = tid then (p.1, tr') else p

/-- The full mutable state of `Search.run`'s loop:
`trials` (line 134), `state` (line 135), `object_id_to_trial_id` (line 136),
`trial_id_to_object_id` (line 137), `running` (line 131), the warnings logged
so far (line 163: `logging.warn(f"Trial {trial_id} failed.")`, recorded by
trial id), and a counter supplying fresh ray object ids. -/
structure SchedState where
  trials : List (TrialId × Trial)
  state : TrialId → Option RunStateEntry
  object_id_to_trial_id : ObjectId → Option TrialId
  trial_id_to_object_id : TrialId → Option ObjectId
  running : List ObjectId
  warnings : List TrialId
  nextOid : ObjectId

/-- The state at entry to the loop (lines 131-137). -/
def initState : SchedState :=
  { trials := []
    state := fun _ => none
    object_id_to_trial_id := fun _ => none
    trial_id_to_object_id := fun _ => none
    running := []
    warnings := []
    nextOid := 0 }

/-- The external collaborators consulted during one loop iteration:
`done` is `Algorithm.is_done()` at the top of the iteration (line 139);
`fin` tells which outstanding object ids `ray.wait` reports finished
(line 146); `results` is `ray.get` on a finished object id — a value or a
surfaced fault (line 153); `availCpu`/`availGpu` are
`ray.available_resources().get('CPU'/'GPU')` (lines 169-172, `none` when the
dimension is absent from the report); `update` is `Algorithm.update(trials,
maximum=...)` (line 176). -/
structure IterOracle where
  done : Bool
  fin : ObjectId → Bool
  results : ObjectId → Except Fault (Bool × Option Metric)
  availCpu : Option Nat
  availGpu : Option Nat
  update : List (TrialId × Trial) → Nat → List (TrialId × Trial)

/- ### Loop pieces -/

/-- Lines 152-163: the `try`/`except` around one finished trial.  On success
with `continue=true`, `set_metric` then `set_has_result`; with
`continue=false`, `set_terminated`; on a surfaced fault, `set_error` plus a
logged warning (the returned flag). -/
def reconcileOne (res : Except Fault (Bool × Option Metric)) (tr : Trial) :
    Trial × Bool :=
  match res with
  | .ok (true, metric) => ((tr.set_metric metric).set_has_result, false)
  | .ok (false, _) => (tr.set_terminated, false)
  | .error _ => (tr.set_error, true)

/-- Lines 148-163: process the finished object ids in order.
`object_id_to_trial_id[str(object_id)]` and `trials[trial_id]` are hard dict
lookups (`KeyError` if missing). -/
def reconcile (results : ObjectId → Except Fault (Bool × Option Metric))
    (o2t : ObjectId → Option TrialId) :
    List ObjectId → List (TrialId × Trial) → List TrialId →
      Except RunError (List (TrialId × Trial) × List TrialId)
  | [], ts, ws => .ok (ts, ws)
  | oid :: rest, ts, ws =>
    match o2t oid with
    | none => .error RunError.keyError
    | some tid =>
      match lookupTr ts tid with
      | none => .error RunError.keyError
      | some tr =>
        reconcile results o2t rest (setTr ts tid (reconcileOne (results oid) tr).1)
          (if (reconcileOne (results oid) tr).2 then ws ++ [tid] else ws)

/-- Line 167 (debug mode): `int(all(t.is_terminated() or t.is_error() for t
in trials.values()))`. -/
def debugBudget (ts : List (TrialId × Trial)) : Nat :=
  if ts.all (fun p => p.2.is_terminated || p.2.is_error) then 1 else 0

/-- Lines 169-173 (non-debug): `current_resources.get('CPU', 0) //
self.n_cpus`, bounded by the GPU quotient when `self.n_gpus` is truthy.
Python's `//` raises `ZeroDivisionError` on a zero divisor (`Nat` division
does not, so the check is explicit); the GPU divisor is guarded by
`if self.n_gpus:` and cannot be zero there. -/
def nonDebugBudget (availCpu availGpu : Option Nat) (n_cpus n_gpus : Nat) :
    Except RunError Nat :=
  if n_cpus = 0 then .error RunError.zeroDivision
  else
    let max_queries := availCpu.getD 0 / n_cpus
    if n_gpus ≠ 0 then
      .ok (min max_queries (availGpu.getD 0 / n_gpus))
    else .ok max_queries

/-- Lines 122-127, the startup validation: skipped in debug mode; otherwise
`total_resources['CPU']`/`['GPU']` are hard dict lookups evaluated only when
the corresponding per-trial request is positive (short-circuit `and`), and a
request exceeding the total capacity raises `ValueError`
(`resourceExceeded`). -/
def startupValidation (debug : Bool) (total : String → Option Nat)
    (n_cpus n_gpus : Nat) : Except RunError Unit :=
  if debug then .ok ()
  else
    match (if 0 < n_cpus then (total "CPU").map (fun c => decide (c < n_cpus))
           else some false) with
    | none => .error RunError.keyError
    | some true => .error RunError.resourceExceeded
    | some false =>
      match (if 0 < n_gpus then (total "GPU").map (fun g => decide (g < n_gpus))
             else some false) with
      | none => .error RunError.keyError
      | some true => .error RunError.resourceExceeded
      | some false => .ok ()

/-- The auxiliary state threaded through the per-trial transition loop
(lines 179-217): everything of `SchedState` except `trials` and `warnings`. -/
structure LoopAux where
  state : TrialId → Option RunStateEntry
  object_id_to_trial_id : ObjectId → Option TrialId
  trial_id_to_object_id : TrialId → Option ObjectId
  running : List ObjectId
  nextOid : ObjectId

/-- Lines 180-217, the body of `for trial_id, trial in trials.items()`:
* `PAUSED`/`RUNNING`: `continue`;
* `ERROR`/`TERMINATED` with an actor in `state[trial_id]`: delete the actor,
  `continue` (the lookup `state[trial_id]` itself can raise `KeyError`);
* `CREATED`: rebuild the nested parameter tree by splitting each dotted key
  (line 187), bind it to a deep copy of the schema, create the checkpoint and
  the actor, `set_resume`;
* then (lines 211-217) any trial now `RESUMING` gets one `step()` dispatched:
  a fresh object id is recorded in both direction maps and appended to
  `running`, and the trial is `set_running` (`state[trial_id]['actor']`
  raises `KeyError` when the entry or the actor is missing). -/
def processTrial (schema0 : Schema) (aux : LoopAux) (tid : TrialId)
    (tr : Trial) : Except RunError (Trial × LoopAux) :=
  if tr.is_paused || tr.is_running then .ok (tr, aux)
  else if tr.is_error || tr.is_terminated then
    match aux.state tid with
    | none => .error RunError.keyError
    | some e =>
      if e.actor.isSome then
        .ok (tr, { aux with
          state := updMap aux.state tid (some { e with actor := none }) })
      else .ok (tr, aux)
  else
    let (tr1, aux1) :=
      if tr.is_created then
        let space := tr.parameters.map fun p => (splitDot p.1, p.2)
        let schema_copy := schema0.set_from_search_space space
        let checkpoint : Checkpoint := { path := tid }
        let entry : RunStateEntry :=
          { schema := schema_copy, checkpoint := checkpoint
            actor := some { schemaArg := schema_copy, checkpointArg := checkpoint } }
        (tr.set_resume, { aux with state := updMap aux.state tid (some entry) })
      else (tr, aux)
    if tr1.is_resuming then
      match aux1.state tid with
      | none => .error RunError.keyError
      | some e =>
        match e.actor with
        | none => .error RunError.keyError
        | some _ =>
          .ok (tr1.set_running, { aux1 with
            object_id_to_trial_id :=
              updMap aux1.object_id_to_trial_id aux1.nextOid (some tid)
            trial_id_to_object_id :=
              updMap aux1.trial_id_to_object_id tid (some aux1.nextOid)
            running := aux1.running ++ [aux1.nextOid]
            nextOid := aux1.nextOid + 1 })
    else .ok (tr1, aux1)

/-- Lines 179-217: fold `processTrial` over `trials.items()` in order.  The
dict's key set is not modified during the iteration, so the output pairs the
same ids with the updated trial objects. -/
def applyTransitions (schema0 : Schema) (aux : LoopAux) :
    List (TrialId × Trial) →
      Except RunError (List (TrialId × Trial) × LoopAux)
  | [] => .ok ([], aux)
  | (tid, tr) :: rest => do
    let (tr', aux') ← processTrial schema0 aux tid tr
    let (rest', aux'') ← applyTransitions schema0 aux' rest
    .ok ((tid, tr') :: rest', aux'')

/-- One iteration of the `while not self.algorithm.is_done()` body
(lines 141-217).  `ray.wait` partitions `running` into finished and still
outstanding (when `running` is empty the `if running:` guard leaves
`finished = []`, which coincides with filtering the empty list). -/
def loopBody (env : EnvR) (n_cpus n_gpus : Nat) (schema0 : Schema)
    (o : IterOracle) (s : SchedState) : Except RunError SchedState := do
  let finished := s.running.filter o.fin
  let running1 := s.running.filter (fun oid => !(o.fin oid))
  let (ts1, ws1) ←
    reconcile o.results s.object_id_to_trial_id finished s.trials s.warnings
  let budget ←
    if env.debug then pure (debugBudget ts1)
    else nonDebugBudget o.availCpu o.availGpu n_cpus n_gpus
  let ts2 := o.update ts1 budget
  let (ts3, aux') ← applyTransitions schema0
    { state := s.state
      object_id_to_trial_id := s.object_id_to_trial_id
      trial_id_to_object_id := s.trial_id_to_object_id
      running := running1
      nextOid := s.nextOid } ts2
  pure
    { trials := ts3
      state := aux'.state
      object_id_to_trial_id := aux'.object_id_to_trial_id
      trial_id_to_object_id := aux'.trial_id_to_object_id
      running := aux'.running
      warnings := ws1
      nextOid := aux'.nextOid }

/-- The scheduler loop (line 139), driven by one oracle per iteration:
`is_done()` is consulted at the top of each iteration; an exhausted oracle
list also ends the loop (a run in which the algorithm reports done then). -/
def runLoop (env : EnvR) (n_cpus n_gpus : Nat) (schema0 : Schema) :
    List IterOracle → SchedState → Except RunError SchedState
  | [], s => .ok s
  | o :: os, s =>
    if o.done then .ok s
    else do
      let s' ← loopBody env n_cpus n_gpus schema0 o s
      runLoop env n_cpus n_gpus schema0 os s'

/-- One output record (lines 221-229): `state[trial_id]` and
`trial_id_to_object_id[trial_id]` are hard lookups that raise `KeyError` when
the trial id is missing; `state[trial_id].get('schema')` and
`.get('checkpoint', None)` are tolerant lookups *inside* an entry (whose
schema and checkpoint sub-keys are in fact always both present). -/
structure ResultRecord where
  schema : Option Schema
  checkpoint : Option Checkpoint
  error : Bool
  metric : Option Metric
  var_id : ObjectId
deriving DecidableEq, Repr

/-- Lines 219-230: construct the result output, one record per tracked trial
id. -/
def buildResults (ts : List (TrialId × Trial))
    (state : TrialId → Option RunStateEntry)
    (t2o : TrialId → Option ObjectId) :
    Except RunError (List (TrialId × ResultRecord)) :=
  match ts with
  | [] => .ok []
  | (tid, tr) :: rest =>
    match state tid with
    | none => .error RunError.keyError
    | some e =>
      match t2o tid with
      | none => .error RunError.keyError
      | some oid => do
        let rest' ← buildResults rest state t2o
        .ok ((tid,
          { schema := some e.schema
            checkpoint := some e.checkpoint
            error := tr.is_error
            metric := tr.best_metric
            var_id := oid }) :: rest')

/-- `Search.run` (lines 101-230): startup validation, then the loop from the
empty initial state, then result construction.  The flattened search space of
line 130 is handed to the algorithm (an oracle here). -/
def runSearch (n_cpus n_gpus : Nat) (schema0 : Schema) (env : EnvR)
    (total : String → Option Nat) (os : List IterOracle) :
    Except RunError (List (TrialId × ResultRecord)) := do
  startupValidation env.debug total n_cpus n_gpus
  let _flat := flattenSpace schema0
  let sF ← runLoop env n_cpus n_gpus schema0 os initState
  buildResults sF.trials sF.state sF.trial_id_to_object_id

/- ### C1, C2, C6, C7, C10 -/

/-- C1 (code bug): finalization state observed when a tracked trial never
acquired run-state (never left CREATED, e.g. introduced by the algorithm but
the loop aborted before processing it): the claim and spec say it yields a
partial record with null schema/checkpoint, but `state[trial_id]` (and then
`trial_id_to_object_id[trial_id]`) raises `KeyError`, failing the whole run.
The tolerant `.get('schema')`/`.get('checkpoint', None)` inside a record show
the partial-record intent that the hard outer lookups defeat. -/
theorem C1_finalization_raises :
    buildResults
      [(0, { status := Status.created, best_metric := none, parameters := [] })]
      (fun _ => none) (fun _ => none) = Except.error RunError.keyError := rfl

/-- C2: in non-debug mode, if the per-trial CPU request exceeds total
declared CPU capacity, or the per-trial GPU request is positive and exceeds
total declared GPU capacity, `run` raises `ValueError` (ResourceExceeded) —
for *every* oracle list, i.e. before the loop is consulted and before any
trial exists; and in debug mode the validation is skipped for all inputs. -/
theorem C2_startup_validation (c g n_cpus n_gpus : Nat)
    (total : String → Option Nat) (schema0 : Schema) (os : List IterOracle)
    (hc : total "CPU" = some c) (hg : total "GPU" = some g)
    (h : c < n_cpus ∨ (0 < n_gpus ∧ g < n_gpus)) :
    runSearch n_cpus n_gpus schema0 { debug := false } total os =
        Except.error RunError.resourceExceeded ∧
      ∀ (total' : String → Option Nat) (nc ng : Nat),
        startupValidation true total' nc ng = Except.ok () := by
  have hval : startupValidation false total n_cpus n_gpus =
      Except.error RunError.resourceExceeded := by
    by_cases hcpu : c < n_cpus
    · have hpos : 0 < n_cpus := Nat.pos_of_ne_zero (by omega)
      simp [startupValidation, hc, hpos, hcpu]
    · rcases h with h | ⟨hgp, hgl⟩
      · exact absurd h hcpu
      · by_cases hpos : 0 < n_cpus
        · simp [startupValidation, hc, hg, hpos, hcpu, hgp, hgl]
        · simp [startupValidation, hg, hpos, hgp, hgl]
  refine ⟨?_, fun total' nc ng => by simp [startupValidation]⟩
  simp [runSearch, hval, Bind.bind, Except.bind]

/-- C2 witness: 4 CPUs per trial requested against a 2-CPU cluster
(spec Scenario C). -/
theorem C2_startup_validation_witness :
    (fun d => if d = "CPU" then some 2 else if d = "GPU" then some 0 else none)
        "CPU" = some 2 ∧
    (fun d => if d = "CPU" then some 2 else if d = "GPU" then some 0 else none)
        "GPU" = some 0 ∧
    (2 < 4 ∨ (0 < 0 ∧ 0 < 0)) ∧
    (runSearch 4 0 { space := [], bound := none } { debug := false }
        (fun d => if d = "CPU" then some 2 else if d = "GPU" then some 0 else none)
        [] = Except.error RunError.resourceExceeded ∧
      ∀ (total' : String → Option Nat) (nc ng : Nat),
        startupValidation true total' nc ng = Except.ok ()) :=
  ⟨by decide, by decide, Or.inl (by decide),
    C2_startup_validation 2 0 4 0 _ _ [] (by decide) (by decide)
      (Or.inl (by decide))⟩

/-- C6: in debug mode the admission budget is `1` exactly when every tracked
trial is terminal (TERMINATED or ERROR) — vacuously `1` on the empty trial
set — and `0` otherwise.  `loopBody` passes exactly this value to
`Algorithm.update` when `env.debug` is set (line 167). -/
theorem C6_debugBudget (ts : List (TrialId × Trial)) :
    (debugBudget ts = 1 ↔
      ∀ p ∈ ts, p.2.status = Status.terminated ∨ p.2.status = Status.error) ∧
    (debugBudget ts = 0 ↔
      ¬ ∀ p ∈ ts, p.2.status = Status.terminated ∨ p.2.status = Status.error) ∧
    debugBudget ([] : List (TrialId × Trial)) = 1 := by
  have hiff : (ts.all (fun p => p.2.is_terminated || p.2.is_error) = true) ↔
      ∀ p ∈ ts, p.2.status = Status.terminated ∨ p.2.status = Status.error := by
    simp [List.all_eq_true, Trial.is_terminated, Trial.is_error]
  have h1 : debugBudget ts = 1 ↔
      ∀ p ∈ ts, p.2.status = Status.terminated ∨ p.2.status = Status.error := by
    constructor
    · intro he
      by_cases h : ts.all (fun p => p.2.is_terminated || p.2.is_error) = true
      · exact hiff.mp h
      · exfalso
        unfold debugBudget at he
        rw [if_neg h] at he
        exact absurd he (by decide)
    · intro hall
      unfold debugBudget
      rw [if_pos (hiff.mpr hall)]
  have h0 : debugBudget ts = 0 ↔
      ¬ ∀ p ∈ ts, p.2.status = Status.terminated ∨ p.2.status = Status.error := by
    constructor
    · intro he hall
      rw [h1.mpr hall] at he
      exact absurd he (by decide)
    · intro hnall
      by_cases h : ts.all (fun p => p.2.is_terminated || p.2.is_error) = true
      · exact absurd (hiff.mp h) hnall
      · unfold debugBudget
        rw [if_neg h]
  exact ⟨h1, h0, rfl⟩

/-- C7: in non-debug mode the admission budget is the floor quotient of
available CPU capacity by `cpus_per_trial` (`Nat` division is floor
division), additionally bounded by the floor quotient of available GPU
capacity by `gpus_per_trial` exactly when `gpus_per_trial > 0`; an absent
resource dimension (`none`) is treated as `0`. -/
theorem C7_nonDebugBudget (availCpu availGpu : Option Nat)
    (n_cpus n_gpus : Nat) (h : 0 < n_cpus) :
    nonDebugBudget availCpu availGpu n_cpus n_gpus =
        Except.ok
          (if 0 < n_gpus then
            min (availCpu.getD 0 / n_cpus) (availGpu.getD 0 / n_gpus)
          else availCpu.getD 0 / n_cpus) ∧
      nonDebugBudget none availGpu n_cpus n_gpus =
        nonDebugBudget (some 0) availGpu n_cpus n_gpus ∧
      nonDebugBudget availCpu none n_cpus n_gpus =
        nonDebugBudget availCpu (some 0) n_cpus n_gpus := by
  have h0 : ¬ n_cpus = 0 := by omega
  refine ⟨?_, by simp [nonDebugBudget], by simp [nonDebugBudget]⟩
  by_cases hg : n_gpus = 0
  · simp [nonDebugBudget, h0, hg]
  · have : 0 < n_gpus := Nat.pos_of_ne_zero hg
    simp [nonDebugBudget, h0, hg, this]

/-- C7 witness: 5 CPUs and 3 GPUs available, 2 CPUs and 1 GPU per trial:
budget `min (5 / 2) (3 / 1) = 2`. -/
theorem C7_nonDebugBudget_witness :
    0 < 2 ∧
      (nonDebugBudget (some 5) (some 3) 2 1 =
          Except.ok
            (if 0 < 1 then
              min ((some 5).getD 0 / 2) ((some 3).getD 0 / 1)
            else (some 5).getD 0 / 2) ∧
        nonDebugBudget none (some 3) 2 1 = nonDebugBudget (some 0) (some 3) 2 1 ∧
        nonDebugBudget (some 5) none 2 1 = nonDebugBudget (some 5) (some 0) 2 1) :=
  ⟨by decide, C7_nonDebugBudget (some 5) (some 3) 2 1 (by decide)⟩

/-- C10: constructing `Search` with `cpus_per_trial = 0` and running
non-debug: the startup validation passes (its CPU comparison is guarded by
`self.n_cpus > 0` and its GPU comparison by `self.n_gpus > 0`), the first
admission-budget computation divides the available CPU count by zero, and the
whole run raises `ZeroDivisionError` — an error outside the spec's taxonomy —
on its first iteration, whatever the cluster's declared totals. -/
theorem C10_zero_cpus_per_trial (total : String → Option Nat)
    (schema0 : Schema) (o : IterOracle) (os : List IterOracle)
    (hdone : o.done = false) :
    startupValidation false total 0 0 = Except.ok () ∧
      nonDebugBudget o.availCpu o.availGpu 0 0 =
        Except.error RunError.zeroDivision ∧
      runSearch 0 0 schema0 { debug := false } total (o :: os) =
        Except.error RunError.zeroDivision := by
  refine ⟨by simp [startupValidation], by simp [nonDebugBudget], ?_⟩
  simp [runSearch, startupValidation, runLoop, hdone, loopBody, initState,
    reconcile, nonDebugBudget, Bind.bind, Except.bind]

/-- C10 witness: a concrete idle oracle over a 2-CPU cluster. -/
theorem C10_zero_cpus_per_trial_witness :
    (IterOracle.mk false (fun _ => false) (fun _ => Except.error 0)
          (some 2) none (fun ts _ => ts)).done = false ∧
      (startupValidation false (fun _ => some 2) 0 0 = Except.ok () ∧
        nonDebugBudget
            (IterOracle.mk false (fun _ => false) (fun _ => Except.error 0)
              (some 2) none (fun ts _ => ts)).availCpu
            (IterOracle.mk false (fun _ => false) (fun _ => Except.error 0)
              (some 2) none (fun ts _ => ts)).availGpu 0 0 =
          Except.error RunError.zeroDivision ∧
        runSearch 0 0 { space := [], bound := none } { debug := false }
            (fun _ => some 2)
            [IterOracle.mk false (fun _ => false) (fun _ => Except.error 0)
              (some 2) none (fun ts _ => ts)] =
          Except.error RunError.zeroDivision) :=
  ⟨rfl, C10_zero_cpus_per_trial (fun _ => some 2) { space := [], bound := none }
    _ [] rfl⟩

/- ### Association-list lemmas for the `trials` dict -/

theorem lookupTr_cons (a : TrialId × Trial) (ts : List (TrialId × Trial))
    (tid : TrialId) :
    lookupTr (a :: ts) tid =
      if a.1 = tid then some a.2 else lookupTr ts tid := by
  by_cases h : a.1 = tid <;> simp [lookupTr, List.find?_cons, h]

theorem setTr_keys (ts : List (TrialId × Trial)) (tid : TrialId)
    (tr' : Trial) : (setTr ts tid tr').map (·.1) = ts.map (·.1) := by
  induction ts with
  | nil => rfl
  | cons a ts ih =>
    by_cases h : a.1 = tid <;> simp [setTr, h] <;>
      simpa [setTr] using ih

theorem lookupTr_setTr_self {ts : List (TrialId × Trial)} {tid : TrialId}
    {tr : Trial} (tr' : Trial) (h : lookupTr ts tid = some tr) :
    lookupTr (setTr ts tid tr') tid = some tr' := by
  induction ts with
  | nil => simp [lookupTr] at h
  | cons a ts ih =>
    by_cases ha : a.1 = tid
    · simp [setTr, lookupTr_cons, ha]
    · rw [lookupTr_cons, if_neg ha] at h
      have := ih h
      simpa [setTr, lookupTr_cons, ha] using this

theorem lookupTr_setTr_ne {tid' tid : TrialId} (ts : List (TrialId × Trial))
    (tr' : Trial) (h : tid' ≠ tid) :
    lookupTr (setTr ts tid tr') tid' = lookupTr ts tid' := by
  induction ts with
  | nil => rfl
  | cons a ts ih =>
    have hset : setTr (a :: ts) tid tr' =
        (if a.1 = tid then (a.1, tr') else a) :: setTr ts tid tr' := rfl
    have hkey : (if a.1 = tid then (a.1, tr') else a).1 = a.1 := by
      by_cases ha : a.1 = tid <;> simp [ha]
    rw [hset, lookupTr_cons, lookupTr_cons, hkey]
    by_cases hb : a.1 = tid'
    · rw [if_pos hb, if_pos hb]
      have ha : ¬ a.1 = tid := by rw [hb]; exact fun hx => h hx
      rw [if_neg ha]
    · rw [if_neg hb, if_neg hb]
      exact ih

theorem mem_of_lookupTr {ts : List (TrialId × Trial)} {tid : TrialId}
    {tr : Trial} (h : lookupTr ts tid = some tr) : (tid, tr) ∈ ts := by
  induction ts with
  | nil => simp [lookupTr] at h
  | cons a ts ih =>
    rw [lookupTr_cons] at h
    by_cases ha : a.1 = tid
    · rw [if_pos ha] at h
      have h2 : a.2 = tr := by injection h
      have heq : (tid, tr) = a := by rw [← ha, ← h2]
      rw [heq]
      exact List.mem_cons_self a ts
    · rw [if_neg ha] at h
      exact List.mem_cons_of_mem a (ih h)

theorem lookupTr_of_mem {ts : List (TrialId × Trial)} {tid : TrialId}
    {tr : Trial} (hnd : (ts.map (·.1)).Nodup) (h : (tid, tr) ∈ ts) :
    lookupTr ts tid = some tr := by
  induction ts with
  | nil => simp at h
  | cons a ts ih =>
    simp only [List.map_cons, List.nodup_cons] at hnd
    rcases List.mem_cons.mp h with h1 | h2
    · rw [← h1, lookupTr_cons]
      simp
    · have htid : tid ∈ ts.map (·.1) := by
        exact List.mem_map.mpr ⟨(tid, tr), h2, rfl⟩
      have ha : a.1 ≠ tid := fun hx => hnd.1 (hx ▸ htid)
      rw [lookupTr_cons, if_neg ha]
      exact ih hnd.2 h2

theorem lookupTr_none_of_not_mem {ts : List (TrialId × Trial)}
    {tid : TrialId} (h : tid ∉ ts.map (·.1)) : lookupTr ts tid = none := by
  induction ts with
  | nil => rfl
  | cons a ts ih =>
    simp only [List.map_cons, List.mem_cons] at h
    push_neg at h
    rw [lookupTr_cons, if_neg (fun hx => h.1 hx.symm)]
    exact ih h.2

theorem mem_keys_of_lookupTr {ts : List (TrialId × Trial)} {tid : TrialId}
    {tr : Trial} (h : lookupTr ts tid = some tr) : tid ∈ ts.map (·.1) :=
  List.mem_map.mpr ⟨(tid, tr), mem_of_lookupTr h, rfl⟩

theorem lookupTr_append (l1 l2 : List (TrialId × Trial)) (tid : TrialId) :
    lookupTr (l1 ++ l2) tid =
      match lookupTr l1 tid with
      | some tr => some tr
      | none => lookupTr l2 tid := by
  induction l1 with
  | nil => simp [lookupTr]
  | cons a l1 ih =>
    by_cases h : a.1 = tid
    · simp [lookupTr_cons, h]
    · simp only [List.cons_append, lookupTr_cons, if_neg h]
      exact ih

/- ### Reconciliation spec (lines 148-163) -/

/-- Full behaviour of `reconcile` under well-formedness of the operation
maps: it succeeds, preserves the key structure of `trials`, only appends to
the warning log, leaves every trial not mapped from a finished operation
untouched, and rewrites each finished operation's trial through
`reconcileOne`. -/
theorem reconcile_spec
    (results : ObjectId → Except Fault (Bool × Option Metric))
    (o2t : ObjectId → Option TrialId) :
    ∀ (finished : List ObjectId) (ts : List (TrialId × Trial))
      (ws : List TrialId),
      finished.Nodup →
      (∀ oid ∈ finished, ∃ tid, o2t oid = some tid ∧
        (lookupTr ts tid).isSome = true) →
      (∀ o1 ∈ finished, ∀ o2 ∈ finished, o2t o1 = o2t o2 → o1 = o2) →
      ∃ ts' ws',
        reconcile results o2t finished ts ws = Except.ok (ts', ws') ∧
        ts'.map (·.1) = ts.map (·.1) ∧
        (∃ extra, ws' = ws ++ extra) ∧
        (∀ tid, (∀ oid ∈ finished, o2t oid ≠ some tid) →
          lookupTr ts' tid = lookupTr ts tid) ∧
        (∀ oid ∈ finished, ∀ tid tr, o2t oid = some tid →
          lookupTr ts tid = some tr →
          lookupTr ts' tid = some (reconcileOne (results oid) tr).1 ∧
          ((reconcileOne (results oid) tr).2 = true → tid ∈ ws')) := by
  intro finished
  induction finished with
  | nil =>
    intro ts ws _ _ _
    exact ⟨ts, ws, rfl, rfl, ⟨[], by simp⟩, fun tid _ => rfl,
      fun oid h => absurd h (List.not_mem_nil oid)⟩
  | cons oid rest ih =>
    intro ts ws hnd hmem hinj
    obtain ⟨tid0, ho2t, hsome⟩ := hmem oid (List.mem_cons_self oid rest)
    obtain ⟨tr0, htr0⟩ := Option.isSome_iff_exists.mp hsome
    have hoid_rest : oid ∉ rest := (List.nodup_cons.mp hnd).1
    have hnd' : rest.Nodup := (List.nodup_cons.mp hnd).2
    -- the head step
    have hred : reconcile results o2t (oid :: rest) ts ws =
        reconcile results o2t rest
          (setTr ts tid0 (reconcileOne (results oid) tr0).1)
          (if (reconcileOne (results oid) tr0).2 then ws ++ [tid0] else ws) := by
      simp only [reconcile, ho2t, htr0]
    set tr0' := (reconcileOne (results oid) tr0).1 with htr0'
    set ts1 := setTr ts tid0 tr0' with hts1
    set ws1 := (if (reconcileOne (results oid) tr0).2 then ws ++ [tid0] else ws)
      with hws1
    -- rest-ids map to trial ids different from tid0
    have hrest_ne : ∀ oid' ∈ rest, o2t oid' ≠ some tid0 := by
      intro oid' hoid' hcontr
      have : oid' = oid := hinj oid' (List.mem_cons_of_mem _ hoid') oid
        (List.mem_cons_self oid rest) (by rw [hcontr, ho2t])
      exact hoid_rest (this ▸ hoid')
    -- IH hypotheses
    have hmem' : ∀ oid' ∈ rest, ∃ tid, o2t oid' = some tid ∧
        (lookupTr ts1 tid).isSome = true := by
      intro oid' hoid'
      obtain ⟨tid', ho2t', hsome'⟩ := hmem oid' (List.mem_cons_of_mem _ hoid')
      refine ⟨tid', ho2t', ?_⟩
      have hne : tid' ≠ tid0 := fun hx => hrest_ne oid' hoid' (hx ▸ ho2t')
      rw [hts1, lookupTr_setTr_ne ts tr0' hne]
      exact hsome'
    have hinj' : ∀ o1 ∈ rest, ∀ o2 ∈ rest, o2t o1 = o2t o2 → o1 = o2 :=
      fun o1 h1 o2 h2 => hinj o1 (List.mem_cons_of_mem _ h1) o2
        (List.mem_cons_of_mem _ h2)
    obtain ⟨ts', ws', heq, hkeys, ⟨extra, hextra⟩, hframe, hops⟩ :=
      ih ts1 ws1 hnd' hmem' hinj'
    refine ⟨ts', ws', by rw [hred]; exact heq, ?_, ?_, ?_, ?_⟩
    · rw [hkeys, hts1, setTr_keys]
    · refine ⟨(if (reconcileOne (results oid) tr0).2 then [tid0] else []) ++
        extra, ?_⟩
      rw [hextra, hws1]
      by_cases hw : (reconcileOne (results oid) tr0).2 <;> simp [hw]
    · intro tid huntouched
      have h1 : lookupTr ts' tid = lookupTr ts1 tid :=
        hframe tid (fun oid' hoid' => huntouched oid'
          (List.mem_cons_of_mem _ hoid'))
      have hne : tid ≠ tid0 := by
        intro hx
        exact huntouched oid (List.mem_cons_self oid rest) (hx ▸ ho2t)
      rw [h1, hts1, lookupTr_setTr_ne ts tr0' hne]
    · intro oid' hoid' tid tr ho2t' htr
      rcases List.mem_cons.mp hoid' with h1 | h2
      · -- the head operation itself
        subst h1
        have htid : tid = tid0 :=
          Option.some_injective _ (ho2t'.symm.trans ho2t)
        subst htid
        have htr' : tr = tr0 :=
          Option.some_injective _ (htr.symm.trans htr0)
        subst htr'
        have hl1 : lookupTr ts' tid = lookupTr ts1 tid := hframe tid hrest_ne
        constructor
        · rw [hl1, hts1, lookupTr_setTr_self tr0' htr0]
        · intro hw
          have : tid ∈ ws1 := by
            rw [hws1, if_pos hw]
            simp
          rw [hextra]
          exact List.mem_append_left extra this
      · -- an operation from the tail
        have hne : tid ≠ tid0 := fun hx =>
          hrest_ne oid' h2 (hx ▸ ho2t')
        have htr1 : lookupTr ts1 tid = some tr := by
          rw [hts1, lookupTr_setTr_ne ts tr0' hne, htr]
        exact hops oid' h2 tid tr ho2t' htr1

/-- C5: for every completed operation reconciled by the loop (lines
148-163): on success with `continue=true` the trial's best metric is
overwritten with the returned metric and the trial is marked HAS_RESULT; on
success with `continue=false` it is marked TERMINATED (metric untouched); on
a fault surfaced from the worker it is marked ERROR, a warning naming the
trial is logged, and the loop is not aborted (reconciliation still returns
normally); and every trial not mapped from a completed operation is left
exactly as it was — failure isolation is per-trial. -/
theorem C5_reconcile_outcomes
    (results : ObjectId → Except Fault (Bool × Option Metric))
    (o2t : ObjectId → Option TrialId) (finished : List ObjectId)
    (ts : List (TrialId × Trial)) (ws : List TrialId)
    (hnd : finished.Nodup)
    (hmem : ∀ oid ∈ finished, ∃ tid, o2t oid = some tid ∧
      (lookupTr ts tid).isSome = true)
    (hinj : ∀ o1 ∈ finished, ∀ o2 ∈ finished, o2t o1 = o2t o2 → o1 = o2) :
    ∃ ts' ws', reconcile results o2t finished ts ws = Except.ok (ts', ws') ∧
      (∀ oid ∈ finished, ∀ tid tr, o2t oid = some tid →
        lookupTr ts tid = some tr →
        (∀ m, results oid = Except.ok (true, m) →
          ∃ tr', lookupTr ts' tid = some tr' ∧
            tr'.status = Status.hasResult ∧ tr'.best_metric = m ∧
            tr'.parameters = tr.parameters) ∧
        (∀ m, results oid = Except.ok (false, m) →
          ∃ tr', lookupTr ts' tid = some tr' ∧
            tr'.status = Status.terminated ∧
            tr'.best_metric = tr.best_metric) ∧
        (∀ f, results oid = Except.error f →
          ∃ tr', lookupTr ts' tid = some tr' ∧ tr'.status = Status.error ∧
            tr'.best_metric = tr.best_metric ∧ tid ∈ ws')) ∧
      (∀ tid, (∀ oid ∈ finished, o2t oid ≠ some tid) →
        lookupTr ts' tid = lookupTr ts tid) := by
  obtain ⟨ts', ws', heq, _, _, hframe, hops⟩ :=
    reconcile_spec results o2t finished ts ws hnd hmem hinj
  refine ⟨ts', ws', heq, ?_, hframe⟩
  intro oid hoid tid tr ho2t htr
  obtain ⟨hlook, hwarn⟩ := hops oid hoid tid tr ho2t htr
  refine ⟨?_, ?_, ?_⟩
  · intro m hres
    rw [hres] at hlook
    refine ⟨(reconcileOne (Except.ok (true, m)) tr).1, hlook, ?_, ?_, ?_⟩ <;>
      simp [reconcileOne, Trial.set_metric, Trial.set_has_result]
  · intro m hres
    rw [hres] at hlook
    refine ⟨(reconcileOne (Except.ok (false, m)) tr).1, hlook, ?_, ?_⟩ <;>
      simp [reconcileOne, Trial.set_terminated]
  · intro f hres
    rw [hres] at hlook hwarn
    refine ⟨(reconcileOne (Except.error f) tr).1, hlook, ?_, ?_,
        hwarn (by simp [reconcileOne])⟩ <;>
      simp [reconcileOne, Trial.set_error]


/-- Concrete inputs for the C5 witness: one outstanding operation (object
id 5) over one RUNNING trial (id 1) whose retrieval surfaces a fault. -/
def resultsW : ObjectId → Except Fault (Bool × Option Metric) :=
  fun _ => Except.error 3

def o2tW : ObjectId → Option TrialId := fun o => if o = 5 then some 1 else none

def tsW : List (TrialId × Trial) := [(1, Trial.mk Status.running (some 2) [])]

/-- C5 witness: with the concrete fault-surfacing inputs, reconciliation
succeeds, the trial is marked ERROR with its metric kept, a warning names it,
and untouched trials are unchanged. -/
theorem C5_reconcile_outcomes_witness :
    ([5] : List ObjectId).Nodup ∧
      (∀ oid ∈ ([5] : List ObjectId), ∃ tid, o2tW oid = some tid ∧
        (lookupTr tsW tid).isSome = true) ∧
      (∀ o1 ∈ ([5] : List ObjectId), ∀ o2 ∈ ([5] : List ObjectId),
        o2tW o1 = o2tW o2 → o1 = o2) ∧
      (∃ ts' ws', reconcile resultsW o2tW [5] tsW [] = Except.ok (ts', ws') ∧
        (∀ oid ∈ ([5] : List ObjectId), ∀ tid tr, o2tW oid = some tid →
          lookupTr tsW tid = some tr →
          (∀ m, resultsW oid = Except.ok (true, m) →
            ∃ tr', lookupTr ts' tid = some tr' ∧
              tr'.status = Status.hasResult ∧ tr'.best_metric = m ∧
              tr'.parameters = tr.parameters) ∧
          (∀ m, resultsW oid = Except.ok (false, m) →
            ∃ tr', lookupTr ts' tid = some tr' ∧
              tr'.status = Status.terminated ∧
              tr'.best_metric = tr.best_metric) ∧
          (∀ f, resultsW oid = Except.error f →
            ∃ tr', lookupTr ts' tid = some tr' ∧ tr'.status = Status.error ∧
              tr'.best_metric = tr.best_metric ∧ tid ∈ ws')) ∧
        (∀ tid, (∀ oid ∈ ([5] : List ObjectId), o2tW oid ≠ some tid) →
          lookupTr ts' tid = lookupTr tsW tid)) := by
  have hmem : ∀ oid ∈ ([5] : List ObjectId), ∃ tid, o2tW oid = some tid ∧
      (lookupTr tsW tid).isSome = true := by
    intro oid hoid
    have h5 : oid = 5 := by simpa using hoid
    subst h5
    exact ⟨1, rfl, rfl⟩
  have hinj : ∀ o1 ∈ ([5] : List ObjectId), ∀ o2 ∈ ([5] : List ObjectId),
      o2tW o1 = o2tW o2 → o1 = o2 := by
    intro o1 h1 o2 h2 _
    have e1 : o1 = 5 := by simpa using h1
    have e2 : o2 = 5 := by simpa using h2
    rw [e1, e2]
  exact ⟨by decide, hmem, hinj,
    C5_reconcile_outcomes resultsW o2tW [5] tsW [] (by decide) hmem hinj⟩

/- ### The outstanding-operation invariant (claim C8) -/

/-- The invariant on the dispatch bookkeeping, relative to the current trial
collection `ctx`: the outstanding object ids are pairwise distinct and below
the fresh-id counter, each maps through `object_id_to_trial_id` to a tracked
trial that is RUNNING, and distinct outstanding object ids map to distinct
trial ids — i.e. at most one outstanding operation per trial. -/
def AuxInv (ctx : List (TrialId × Trial)) (running : List ObjectId)
    (nextOid : ObjectId) (o2t : ObjectId → Option TrialId) : Prop :=
  running.Nodup ∧
  (∀ oid ∈ running, oid < nextOid) ∧
  (∀ oid ∈ running, ∃ tid tr, o2t oid = some tid ∧
    lookupTr ctx tid = some tr ∧ tr.status = Status.running) ∧
  (∀ o1 ∈ running, ∀ o2 ∈ running, o2t o1 = o2t o2 → o1 = o2)

/-- Entry-wise precondition for one `trials.items()` entry, guaranteeing that
`processTrial` performs no failing dict lookup: a trial that is not freshly
CREATED was dispatched before (it has a `trial_id_to_object_id` entry); a
terminal trial has a `state` entry; and a non-created, non-terminal trial has
a `state` entry whose actor is still present. -/
def PreCond (rs : TrialId → Option RunStateEntry)
    (t2o : TrialId → Option ObjectId) (p : TrialId × Trial) : Prop :=
  (p.2.status ≠ Status.created → (t2o p.1).isSome = true) ∧
  ((p.2.status = Status.terminated ∨ p.2.status = Status.error) →
    (rs p.1).isSome = true) ∧
  (p.2.status ≠ Status.created → p.2.status ≠ Status.terminated →
    p.2.status ≠ Status.error →
    ∃ e, rs p.1 = some e ∧ e.actor.isSome = true)

/-- The status after one pass of lines 179-217: CREATED and RESUMING trials
end up RUNNING (materialize/dispatch), all others keep their status. -/
def postOfStatus : Status → Status
  | Status.created => Status.running
  | Status.resuming => Status.running
  | st => st

theorem lookupTr_mid_self (done rest : List (TrialId × Trial))
    (tid : TrialId) (a : Trial) (h : tid ∉ done.map (·.1)) :
    lookupTr (done ++ (tid, a) :: rest) tid = some a := by
  have h1 : lookupTr done tid = none := lookupTr_none_of_not_mem h
  rw [lookupTr_append, h1]
  simp [lookupTr_cons]

theorem lookupTr_mid_ne (done rest : List (TrialId × Trial))
    {tid tid' : TrialId} (a b : Trial) (h : tid' ≠ tid) :
    lookupTr (done ++ (tid, a) :: rest) tid' =
      lookupTr (done ++ (tid, b) :: rest) tid' := by
  rw [lookupTr_append, lookupTr_append]
  have hne : ¬ (tid, a).1 = tid' := fun hx => h hx.symm
  have hne' : ¬ (tid, b).1 = tid' := fun hx => h hx.symm
  cases hd : lookupTr done tid'
  · simp only [lookupTr_cons, if_neg hne, if_neg hne']
  · rfl

/-- Under the invariant, no outstanding operation points at the trial in the
middle position when that trial's status is not RUNNING. -/
theorem auxinv_op_tid_ne {done rest : List (TrialId × Trial)} {tid : TrialId}
    {tr : Trial} {running : List ObjectId} {nextOid : ObjectId}
    {o2t : ObjectId → Option TrialId}
    (hk : ((done ++ (tid, tr) :: rest).map (·.1)).Nodup)
    (hA : AuxInv (done ++ (tid, tr) :: rest) running nextOid o2t)
    (hne : tr.status ≠ Status.running) :
    ∀ oid ∈ running, o2t oid ≠ some tid := by
  intro oid hoid hcontr
  obtain ⟨tid2, tr2, ho2t2, hlook2, hrun2⟩ := hA.2.2.1 oid hoid
  have htid2 : tid2 = tid := by
    rw [hcontr] at ho2t2
    exact (Option.some_injective _ ho2t2).symm
  subst htid2
  have hmem : (tid2, tr) ∈ done ++ (tid2, tr) :: rest := by
    simp
  have hlook : lookupTr (done ++ (tid2, tr) :: rest) tid2 = some tr :=
    lookupTr_of_mem hk hmem
  have : tr2 = tr := Option.some_injective _ (hlook2.symm.trans hlook)
  exact hne (this ▸ hrun2)

/-- Appending a freshly dispatched operation for the middle trial — which was
not RUNNING and becomes RUNNING — preserves the invariant. -/
theorem auxinv_dispatch {done rest : List (TrialId × Trial)} {tid : TrialId}
    {tr tr' : Trial} {running : List ObjectId} {nextOid : ObjectId}
    {o2t : ObjectId → Option TrialId}
    (hk : ((done ++ (tid, tr) :: rest).map (·.1)).Nodup)
    (hA : AuxInv (done ++ (tid, tr) :: rest) running nextOid o2t)
    (hne : tr.status ≠ Status.running) (htr' : tr'.status = Status.running) :
    AuxInv (done ++ (tid, tr') :: rest) (running ++ [nextOid]) (nextOid + 1)
      (updMap o2t nextOid (some tid)) := by
  obtain ⟨hnd, hfresh, hmapped, hinj⟩ := hA
  have hnotmem : nextOid ∉ running := fun hmem =>
    absurd (hfresh nextOid hmem) (lt_irrefl nextOid)
  have hop_ne := auxinv_op_tid_ne hk ⟨hnd, hfresh, hmapped, hinj⟩ hne
  have htid_not_done : tid ∉ done.map (·.1) := by
    rw [List.map_append] at hk
    obtain ⟨_, _, hdisj⟩ := List.nodup_append.mp hk
    intro hmem
    exact hdisj hmem (by simp)
  refine ⟨?_, ?_, ?_, ?_⟩
  · rw [List.nodup_append]
    exact ⟨hnd, List.nodup_singleton _,
      fun a ha hb => by
        have : a = nextOid := by simpa using hb
        exact hnotmem (this ▸ ha)⟩
  · intro oid hoid
    rcases List.mem_append.mp hoid with h | h
    · exact Nat.lt_succ_of_lt (hfresh oid h)
    · have he : oid = nextOid := by simpa using h
      rw [he]
      exact Nat.lt_succ_self nextOid
  · intro oid hoid
    rcases List.mem_append.mp hoid with h | h
    · obtain ⟨tid2, tr2, ho2t2, hlook2, hrun2⟩ := hmapped oid h
      have hoid_ne : oid ≠ nextOid := fun hx => hnotmem (hx ▸ h)
      have htid2_ne : tid2 ≠ tid := by
        intro hx
        exact hop_ne oid h (hx ▸ ho2t2)
      refine ⟨tid2, tr2, ?_, ?_, hrun2⟩
      · rw [updMap_ne _ _ _ hoid_ne]
        exact ho2t2
      · rw [← lookupTr_mid_ne done rest tr tr' htid2_ne]
        exact hlook2
    · have hoid : oid = nextOid := by simpa using h
      rw [hoid]
      refine ⟨tid, tr', ?_, ?_, htr'⟩
      · exact updMap_self _ _ _
      · exact lookupTr_mid_self done rest tid tr' htid_not_done
  · intro o1 h1 o2 h2 heq
    rcases List.mem_append.mp h1 with ha1 | ha1 <;>
      rcases List.mem_append.mp h2 with ha2 | ha2
    · have hne1 : o1 ≠ nextOid := fun hx => hnotmem (hx ▸ ha1)
      have hne2 : o2 ≠ nextOid := fun hx => hnotmem (hx ▸ ha2)
      rw [updMap_ne _ _ _ hne1, updMap_ne _ _ _ hne2] at heq
      exact hinj o1 ha1 o2 ha2 heq
    · have he2 : o2 = nextOid := by simpa using ha2
      have hne1 : o1 ≠ nextOid := fun hx => hnotmem (hx ▸ ha1)
      rw [he2, updMap_ne _ _ _ hne1, updMap_self] at heq
      obtain ⟨tid2, tr2, ho2t2, _, _⟩ := hmapped o1 ha1
      rw [ho2t2] at heq
      have : tid2 = tid := Option.some_injective _ heq
      exact absurd (this ▸ ho2t2) (hop_ne o1 ha1)
    · have he1 : o1 = nextOid := by simpa using ha1
      have hne2 : o2 ≠ nextOid := fun hx => hnotmem (hx ▸ ha2)
      rw [he1, updMap_self, updMap_ne _ _ _ hne2] at heq
      obtain ⟨tid2, tr2, ho2t2, _, _⟩ := hmapped o2 ha2
      rw [ho2t2] at heq
      have : tid2 = tid := Option.some_injective _ heq.symm
      exact absurd (this ▸ ho2t2) (hop_ne o2 ha2)
    · have he1 : o1 = nextOid := by simpa using ha1
      have he2 : o2 = nextOid := by simpa using ha2
      rw [he1, he2]

/-- Complete behaviour of one `trials.items()` entry under its precondition:
the entry succeeds; the trial's status moves along `postOfStatus` with its
best metric untouched; run-state and dispatch bookkeeping of *other* trial
ids are untouched; the trial keeps a run-state entry (with a live actor
unless it is terminal) and a last-dispatched object id; and either no
dispatch happened (status neither CREATED nor RESUMING: nothing else
changes), or exactly one fresh operation was dispatched for this trial
(status CREATED or RESUMING). -/
theorem processTrial_spec (schema0 : Schema) (aux : LoopAux) (tid : TrialId)
    (tr : Trial)
    (hpre : PreCond aux.state aux.trial_id_to_object_id (tid, tr)) :
    ∃ tr' aux', processTrial schema0 aux tid tr = Except.ok (tr', aux') ∧
      tr'.status = postOfStatus tr.status ∧
      tr'.best_metric = tr.best_metric ∧
      (∀ tid', tid' ≠ tid → aux'.state tid' = aux.state tid' ∧
        aux'.trial_id_to_object_id tid' = aux.trial_id_to_object_id tid') ∧
      (∃ e, aux'.state tid = some e ∧
        (tr.status ≠ Status.terminated → tr.status ≠ Status.error →
          e.actor.isSome = true)) ∧
      (aux'.trial_id_to_object_id tid).isSome = true ∧
      ((tr.status ≠ Status.created ∧ tr.status ≠ Status.resuming ∧ tr' = tr ∧
        aux'.running = aux.running ∧ aux'.nextOid = aux.nextOid ∧
        aux'.object_id_to_trial_id = aux.object_id_to_trial_id ∧
        aux'.trial_id_to_object_id = aux.trial_id_to_object_id) ∨
       ((tr.status = Status.created ∨ tr.status = Status.resuming) ∧
        aux'.running = aux.running ++ [aux.nextOid] ∧
        aux'.nextOid = aux.nextOid + 1 ∧
        aux'.object_id_to_trial_id =
          updMap aux.object_id_to_trial_id aux.nextOid (some tid) ∧
        aux'.trial_id_to_object_id =
          updMap aux.trial_id_to_object_id tid (some aux.nextOid))) := by
  obtain ⟨hp1, hp2, hp3⟩ := hpre
  cases h : tr.status with
  | paused =>
    refine ⟨tr, aux, ?_, by first | rfl | (rw [h]; rfl), rfl, fun _ _ => ⟨rfl, rfl⟩, ?_, ?_, ?_⟩
    · simp [processTrial, Trial.is_paused, h]
    · obtain ⟨e, he, hact⟩ := hp3 (by simp [h]) (by simp [h]) (by simp [h])
      exact ⟨e, he, fun _ _ => hact⟩
    · exact hp1 (by simp [h])
    · exact Or.inl ⟨by simp [h], by simp [h], rfl, rfl, rfl, rfl, rfl⟩
  | running =>
    refine ⟨tr, aux, ?_, by first | rfl | (rw [h]; rfl), rfl, fun _ _ => ⟨rfl, rfl⟩, ?_, ?_, ?_⟩
    · simp [processTrial, Trial.is_paused, Trial.is_running, h]
    · obtain ⟨e, he, hact⟩ := hp3 (by simp [h]) (by simp [h]) (by simp [h])
      exact ⟨e, he, fun _ _ => hact⟩
    · exact hp1 (by simp [h])
    · exact Or.inl ⟨by simp [h], by simp [h], rfl, rfl, rfl, rfl, rfl⟩
  | hasResult =>
    refine ⟨tr, aux, ?_, by first | rfl | (rw [h]; rfl), rfl, fun _ _ => ⟨rfl, rfl⟩, ?_, ?_, ?_⟩
    · simp [processTrial, Trial.is_paused, Trial.is_running, Trial.is_error,
        Trial.is_terminated, Trial.is_created, Trial.is_resuming, h]
    · obtain ⟨e, he, hact⟩ := hp3 (by simp [h]) (by simp [h]) (by simp [h])
      exact ⟨e, he, fun _ _ => hact⟩
    · exact hp1 (by simp [h])
    · exact Or.inl ⟨by simp [h], by simp [h], rfl, rfl, rfl, rfl, rfl⟩
  | terminated =>
    obtain ⟨e, he⟩ := Option.isSome_iff_exists.mp (hp2 (by simp [h]))
    by_cases hact : e.actor.isSome = true
    · refine ⟨tr, { aux with
        state := updMap aux.state tid (some { e with actor := none }) },
        ?_, by first | rfl | (rw [h]; rfl), rfl, ?_, ?_, ?_, ?_⟩
      · simp [processTrial, Trial.is_paused, Trial.is_running, Trial.is_error,
          Trial.is_terminated, h, he, hact]
      · intro tid' hne
        exact ⟨updMap_ne _ _ _ hne, rfl⟩
      · exact ⟨{ e with actor := none }, updMap_self _ _ _,
          fun h1 _ => absurd rfl h1⟩
      · exact hp1 (by simp [h])
      · exact Or.inl ⟨by simp [h], by simp [h], rfl, rfl, rfl, rfl, rfl⟩
    · refine ⟨tr, aux, ?_, by first | rfl | (rw [h]; rfl), rfl, fun _ _ => ⟨rfl, rfl⟩, ?_, ?_, ?_⟩
      · simp [processTrial, Trial.is_paused, Trial.is_running, Trial.is_error,
          Trial.is_terminated, h, he, hact]
      · exact ⟨e, he, fun h1 _ => absurd rfl h1⟩
      · exact hp1 (by simp [h])
      · exact Or.inl ⟨by simp [h], by simp [h], rfl, rfl, rfl, rfl, rfl⟩
  | error =>
    obtain ⟨e, he⟩ := Option.isSome_iff_exists.mp (hp2 (by simp [h]))
    by_cases hact : e.actor.isSome = true
    · refine ⟨tr, { aux with
        state := updMap aux.state tid (some { e with actor := none }) },
        ?_, by first | rfl | (rw [h]; rfl), rfl, ?_, ?_, ?_, ?_⟩
      · simp [processTrial, Trial.is_paused, Trial.is_running, Trial.is_error,
          h, he, hact]
      · intro tid' hne
        exact ⟨updMap_ne _ _ _ hne, rfl⟩
      · exact ⟨{ e with actor := none }, updMap_self _ _ _,
          fun _ h2 => absurd rfl h2⟩
      · exact hp1 (by simp [h])
      · exact Or.inl ⟨by simp [h], by simp [h], rfl, rfl, rfl, rfl, rfl⟩
    · refine ⟨tr, aux, ?_, by first | rfl | (rw [h]; rfl), rfl, fun _ _ => ⟨rfl, rfl⟩, ?_, ?_, ?_⟩
      · simp [processTrial, Trial.is_paused, Trial.is_running, Trial.is_error,
          h, he, hact]
      · exact ⟨e, he, fun _ h2 => absurd rfl h2⟩
      · exact hp1 (by simp [h])
      · exact Or.inl ⟨by simp [h], by simp [h], rfl, rfl, rfl, rfl, rfl⟩
  | created =>
    refine ⟨(tr.set_resume).set_running, { aux with
        state := updMap aux.state tid (some
          { schema := schema0.set_from_search_space
              (tr.parameters.map fun p => (splitDot p.1, p.2))
            checkpoint := { path := tid }
            actor := some
              { schemaArg := schema0.set_from_search_space
                  (tr.parameters.map fun p => (splitDot p.1, p.2))
                checkpointArg := { path := tid } } })
        object_id_to_trial_id :=
          updMap aux.object_id_to_trial_id aux.nextOid (some tid)
        trial_id_to_object_id :=
          updMap aux.trial_id_to_object_id tid (some aux.nextOid)
        running := aux.running ++ [aux.nextOid]
        nextOid := aux.nextOid + 1 },
      ?_, rfl, rfl, ?_, ?_, ?_, ?_⟩
    · simp [processTrial, Trial.is_paused, Trial.is_running, Trial.is_error,
        Trial.is_terminated, Trial.is_created, Trial.is_resuming,
        Trial.set_resume, Trial.set_running, h, updMap_self]
    · intro tid' hne
      exact ⟨updMap_ne _ _ _ hne, updMap_ne _ _ _ hne⟩
    · refine ⟨_, updMap_self _ _ _, fun _ _ => rfl⟩
    · simp [updMap_self]
    · exact Or.inr ⟨Or.inl rfl, rfl, rfl, rfl, rfl⟩
  | resuming =>
    obtain ⟨e, he, hact⟩ := hp3 (by simp [h]) (by simp [h]) (by simp [h])
    obtain ⟨a, ha⟩ := Option.isSome_iff_exists.mp hact
    refine ⟨tr.set_running, { aux with
        object_id_to_trial_id :=
          updMap aux.object_id_to_trial_id aux.nextOid (some tid)
        trial_id_to_object_id :=
          updMap aux.trial_id_to_object_id tid (some aux.nextOid)
        running := aux.running ++ [aux.nextOid]
        nextOid := aux.nextOid + 1 },
      ?_, rfl, rfl, ?_, ?_, ?_, ?_⟩
    · simp [processTrial, Trial.is_paused, Trial.is_running, Trial.is_error,
        Trial.is_terminated, Trial.is_created, Trial.is_resuming,
        Trial.set_running, h, he, ha]
    · intro tid' hne
      exact ⟨rfl, updMap_ne _ _ _ hne⟩
    · exact ⟨e, he, fun _ _ => hact⟩
    · simp [updMap_self]
    · exact Or.inr ⟨Or.inr rfl, rfl, rfl, rfl, rfl⟩

/-- The per-iteration transition pass (lines 179-217) preserves the
outstanding-operation invariant: starting from any processed prefix `done`
and pending suffix `todo` with duplicate-free trial ids, the pass succeeds,
keeps the id sequence, moves each trial's status along `postOfStatus`,
maintains `AuxInv` — in particular at most one outstanding operation per
trial, each pointing at a RUNNING trial — and leaves every processed trial
with a run-state entry (live actor unless terminal) and a recorded object
id. -/
theorem applyT_spec (schema0 : Schema) :
    ∀ (todo done : List (TrialId × Trial)) (aux : LoopAux),
      ((done ++ todo).map (·.1)).Nodup →
      AuxInv (done ++ todo) aux.running aux.nextOid
        aux.object_id_to_trial_id →
      (∀ p ∈ todo, PreCond aux.state aux.trial_id_to_object_id p) →
      ∃ out aux',
        applyTransitions schema0 aux todo = Except.ok (out, aux') ∧
        out.map (·.1) = todo.map (·.1) ∧
        (∀ q ∈ out, ∃ p, p ∈ todo ∧ p.1 = q.1 ∧
          q.2.status = postOfStatus p.2.status ∧
          q.2.best_metric = p.2.best_metric) ∧
        AuxInv (done ++ out) aux'.running aux'.nextOid
          aux'.object_id_to_trial_id ∧
        (∀ q ∈ out, ∃ e, aux'.state q.1 = some e ∧
          (q.2.status ≠ Status.terminated → q.2.status ≠ Status.error →
            e.actor.isSome = true)) ∧
        (∀ q ∈ out, (aux'.trial_id_to_object_id q.1).isSome = true) ∧
        (∀ tid', tid' ∉ todo.map (·.1) →
          aux'.state tid' = aux.state tid' ∧
          aux'.trial_id_to_object_id tid' = aux.trial_id_to_object_id tid') ∧
        aux.nextOid ≤ aux'.nextOid := by
  intro todo
  induction todo with
  | nil =>
    intro done aux hk hA _
    exact ⟨[], aux, rfl, rfl, fun q hq => absurd hq (List.not_mem_nil q),
      by simpa using hA, fun q hq => absurd hq (List.not_mem_nil q),
      fun q hq => absurd hq (List.not_mem_nil q),
      fun _ _ => ⟨rfl, rfl⟩, le_refl _⟩
  | cons p rest ih =>
    obtain ⟨tid, tr⟩ := p
    intro done aux hk hA hpre
    obtain ⟨tr', aux1, heq1, hstat, hmet, hframe1, hstate1, ht2o1, hdisj⟩ :=
      processTrial_spec schema0 aux tid tr (hpre (tid, tr) (List.mem_cons_self _ _))
    -- the keys are unchanged by replacing the middle trial value
    have hkeys_same : ((done ++ (tid, tr') :: rest).map (·.1)) =
        ((done ++ (tid, tr) :: rest).map (·.1)) := by
      simp only [List.map_append, List.map_cons]
    have hk' : ((done ++ (tid, tr') :: rest).map (·.1)).Nodup := by
      rw [hkeys_same]; exact hk
    -- tid is not a key of done or rest
    have hsplit : (done ++ (tid, tr) :: rest).map (·.1) =
        done.map (·.1) ++ tid :: rest.map (·.1) := by
      simp only [List.map_append, List.map_cons]
    have htid_done : tid ∉ done.map (·.1) := by
      rw [hsplit] at hk
      obtain ⟨_, _, hdisj'⟩ := List.nodup_append.mp hk
      intro hmem
      exact hdisj' hmem (by simp)
    have htid_rest : tid ∉ rest.map (·.1) := by
      rw [hsplit] at hk
      obtain ⟨_, hnd2, _⟩ := List.nodup_append.mp hk
      exact (List.nodup_cons.mp hnd2).1
    -- invariant after the head entry
    have hA1 : AuxInv (done ++ (tid, tr') :: rest) aux1.running aux1.nextOid
        aux1.object_id_to_trial_id := by
      rcases hdisj with ⟨_, _, htr, hrun, hnext, ho2t, _⟩ |
        ⟨hcr, hrun, hnext, ho2t, _⟩
      · rw [hrun, hnext, ho2t, htr]
        exact hA
      · rw [hrun, hnext, ho2t]
        have hne : tr.status ≠ Status.running := by
          rcases hcr with h | h <;> rw [h] <;> simp
        have htr'run : tr'.status = Status.running := by
          rcases hcr with h | h <;> rw [hstat, h] <;> rfl
        exact auxinv_dispatch hk hA hne htr'run
    -- preconditions survive for the tail
    have hpre1 : ∀ q ∈ rest, PreCond aux1.state aux1.trial_id_to_object_id q := by
      intro q hq
      have hqne : q.1 ≠ tid := by
        intro hx
        exact htid_rest (hx ▸ List.mem_map.mpr ⟨q, hq, rfl⟩)
      obtain ⟨hs, ht⟩ := hframe1 q.1 hqne
      obtain ⟨q1, q2, q3⟩ := hpre q (List.mem_cons_of_mem _ hq)
      refine ⟨?_, ?_, ?_⟩
      · rw [ht]; exact q1
      · rw [hs]; exact q2
      · rw [hs]; exact q3
    -- apply the induction hypothesis after the head
    have hassoc : (done ++ [(tid, tr')]) ++ rest = done ++ (tid, tr') :: rest := by
      simp
    obtain ⟨rest', aux'', heq2, hkeys2, hpost2, hA2, hstate2, ht2o2,
        hframe2, hle2⟩ := ih (done ++ [(tid, tr')]) aux1
      (by rw [hassoc]; exact hk') (by rw [hassoc]; exact hA1) hpre1
    have hassoc2 : (done ++ [(tid, tr')]) ++ rest' = done ++ (tid, tr') :: rest' := by
      simp
    refine ⟨(tid, tr') :: rest', aux'', ?_, ?_, ?_, ?_, ?_, ?_, ?_, ?_⟩
    · simp only [applyTransitions, heq1, heq2, Except.bind, Bind.bind]
    · simp only [List.map_cons, hkeys2]
    · intro q hq
      rcases List.mem_cons.mp hq with h | h
      · exact ⟨(tid, tr), List.mem_cons_self _ _, by rw [h],
          by rw [h]; exact hstat, by rw [h]; exact hmet⟩
      · obtain ⟨p2, hp2, hpeq, hps, hpm⟩ := hpost2 q h
        exact ⟨p2, List.mem_cons_of_mem _ hp2, hpeq, hps, hpm⟩
    · rw [← hassoc2]
      exact hA2
    · intro q hq
      rcases List.mem_cons.mp hq with h | h
      · obtain ⟨e, he, hact⟩ := hstate1
        have hpres := (hframe2 tid htid_rest).1
        refine ⟨e, ?_, ?_⟩
        · rw [h]
          rw [hpres]
          exact he
        · intro h1 h2
          rw [h] at h1 h2
          refine hact ?_ ?_
          · intro hx
            exact h1 (by rw [hstat, hx]; rfl)
          · intro hx
            exact h2 (by rw [hstat, hx]; rfl)
      · exact hstate2 q h
    · intro q hq
      rcases List.mem_cons.mp hq with h | h
      · have hpres := (hframe2 tid htid_rest).2
        rw [h, hpres]
        exact ht2o1
      · exact ht2o2 q h
    · intro tid' hnin
      have hne : tid' ≠ tid := by
        intro hx
        exact hnin (by rw [hx]; simp)
      have hnin' : tid' ∉ rest.map (·.1) := by
        intro hx
        exact hnin (by simp [hx])
      obtain ⟨hs2, ht2⟩ := hframe2 tid' hnin'
      obtain ⟨hs1, ht1⟩ := hframe1 tid' hne
      exact ⟨hs2.trans hs1, ht2.trans ht1⟩
    · have h1 : aux.nextOid ≤ aux1.nextOid := by
        rcases hdisj with ⟨_, _, _, _, hnext, _, _⟩ | ⟨_, _, hnext, _, _⟩
        · rw [hnext]
        · rw [hnext]; exact Nat.le_succ _
      exact h1.trans hle2

/-- Reconciliation (lines 154-162) only produces HAS_RESULT, TERMINATED or
ERROR. -/
theorem reconcileOne_status (res : Except Fault (Bool × Option Metric))
    (tr : Trial) :
    (reconcileOne res tr).1.status = Status.hasResult ∨
      (reconcileOne res tr).1.status = Status.terminated ∨
      (reconcileOne res tr).1.status = Status.error := by
  rcases res with f | ⟨b, m⟩
  · right; right; rfl
  · cases b
    · right; left; rfl
    · left; rfl

theorem postOfStatus_not_transient (st : Status) :
    postOfStatus st ≠ Status.created ∧ postOfStatus st ≠ Status.resuming := by
  cases st <;> exact ⟨by simp [postOfStatus], by simp [postOfStatus]⟩

/-- The full scheduler-state invariant at an iteration boundary: trial ids
are unique; the outstanding-operation bookkeeping satisfies `AuxInv`
(at most one outstanding operation per trial, each pointing at a RUNNING
trial); no tracked trial is in the transient CREATED or RESUMING status; and
every tracked trial has its run-state/object-id bookkeeping in place
(`PreCond`). -/
def SchedInv (s : SchedState) : Prop :=
  (s.trials.map (·.1)).Nodup ∧
  AuxInv s.trials s.running s.nextOid s.object_id_to_trial_id ∧
  (∀ p ∈ s.trials, p.2.status ≠ Status.created ∧
    p.2.status ≠ Status.resuming) ∧
  (∀ p ∈ s.trials, PreCond s.state s.trial_id_to_object_id p)

/-- The contract of `Algorithm.update` (spec sections 4.1, 4.3 step 4, 6):
returned trial ids are unique; ids new to the collection are CREATED;
RUNNING trials are not touched (status preserved), terminal trials stay
terminal; and ids of RUNNING trials are never dropped. -/
def AlgoStep (ts out : List (TrialId × Trial)) : Prop :=
  (out.map (·.1)).Nodup ∧
  (∀ tid tr', lookupTr out tid = some tr' → lookupTr ts tid = none →
    tr'.status = Status.created) ∧
  (∀ tid tr tr', lookupTr ts tid = some tr → lookupTr out tid = some tr' →
    (tr.status = Status.running → tr'.status = Status.running) ∧
    (tr.status = Status.terminated → tr'.status = Status.terminated) ∧
    (tr.status = Status.error → tr'.status = Status.error)) ∧
  (∀ tid tr, lookupTr ts tid = some tr → tr.status = Status.running →
    (lookupTr out tid).isSome = true)

/-- One loop iteration (lines 141-217) preserves the invariant, given the
algorithm contract and a positive CPU reservation in non-debug mode. -/
theorem loopBody_inv (env : EnvR) (n_cpus n_gpus : Nat) (schema0 : Schema)
    (o : IterOracle) (s : SchedState)
    (hbud : env.debug = true ∨ 0 < n_cpus)
    (hupd : ∀ ts b, (ts.map (·.1)).Nodup → AlgoStep ts (o.update ts b))
    (hinv : SchedInv s) :
    ∃ s', loopBody env n_cpus n_gpus schema0 o s = Except.ok s' ∧ SchedInv s' := by
  obtain ⟨hknd, ⟨hrnd, hfresh, hmapped, hinj⟩, htrans, hpre⟩ := hinv
  -- step 1: ray.wait partitions `running`
  have hfin_sub : ∀ oid ∈ s.running.filter o.fin, oid ∈ s.running :=
    fun oid h => (List.mem_filter.mp h).1
  have hfin_nd : (s.running.filter o.fin).Nodup := hrnd.filter _
  have hrun1_sub : ∀ oid ∈ s.running.filter (fun oid => !(o.fin oid)),
      oid ∈ s.running := fun oid h => (List.mem_filter.mp h).1
  have hrun1_nd : (s.running.filter (fun oid => !(o.fin oid))).Nodup :=
    hrnd.filter _
  have hdisjoint : ∀ oid ∈ s.running.filter (fun oid => !(o.fin oid)),
      oid ∉ s.running.filter o.fin := by
    intro oid h1 h2
    have hf1 := (List.mem_filter.mp h1).2
    have hf2 := (List.mem_filter.mp h2).2
    simp at hf1
    rw [hf1] at hf2
    cases hf2
  -- step 2: reconcile
  obtain ⟨ts1, ws1, heq_rec, hkeys1, _, hframe_rec, hops_rec⟩ :=
    reconcile_spec o.results s.object_id_to_trial_id (s.running.filter o.fin)
      s.trials s.warnings hfin_nd
      (fun oid h => by
        obtain ⟨tid, tr, ho2t, hlook, _⟩ := hmapped oid (hfin_sub oid h)
        exact ⟨tid, ho2t, by rw [hlook]; rfl⟩)
      (fun o1 h1 o2 h2 => hinj o1 (hfin_sub o1 h1) o2 (hfin_sub o2 h2))
  have hknd1 : (ts1.map (·.1)).Nodup := by rw [hkeys1]; exact hknd
  -- characterize the entries of ts1
  have hts1_char : ∀ tid tr1, lookupTr ts1 tid = some tr1 →
      ∃ tr0, lookupTr s.trials tid = some tr0 ∧
        (tr1 = tr0 ∨ (tr0.status = Status.running ∧
          ∃ res, tr1 = (reconcileOne res tr0).1)) := by
    intro tid tr1 h1
    by_cases htouch : ∃ oid ∈ s.running.filter o.fin,
        s.object_id_to_trial_id oid = some tid
    · obtain ⟨oid, hoidmem, ho2t⟩ := htouch
      obtain ⟨tid2, tr0, ho2t2, hlook0, hrun0⟩ :=
        hmapped oid (hfin_sub oid hoidmem)
      have htid2 : tid2 = tid := Option.some_injective _ (ho2t2.symm.trans ho2t)
      subst htid2
      obtain ⟨hl1, _⟩ := hops_rec oid hoidmem tid2 tr0 ho2t hlook0
      have : tr1 = (reconcileOne (o.results oid) tr0).1 :=
        Option.some_injective _ (h1.symm.trans hl1)
      exact ⟨tr0, hlook0, Or.inr ⟨hrun0, o.results oid, this⟩⟩
    · push_neg at htouch
      have := hframe_rec tid htouch
      rw [h1] at this
      exact ⟨tr1, this.symm, Or.inl rfl⟩
  have htrans1 : ∀ tid tr1, lookupTr ts1 tid = some tr1 →
      tr1.status ≠ Status.created ∧ tr1.status ≠ Status.resuming := by
    intro tid tr1 h1
    obtain ⟨tr0, hlook0, hcase⟩ := hts1_char tid tr1 h1
    rcases hcase with h | ⟨_, res, h⟩
    · rw [h]
      exact htrans (tid, tr0) (mem_of_lookupTr hlook0)
    · rw [h]
      rcases reconcileOne_status res tr0 with hs | hs | hs <;>
        rw [hs] <;> exact ⟨by simp, by simp⟩
  have hstate1 : ∀ tid tr1, lookupTr ts1 tid = some tr1 →
      (s.state tid).isSome = true ∧
      (tr1.status ≠ Status.terminated → tr1.status ≠ Status.error →
        ∃ e, s.state tid = some e ∧ e.actor.isSome = true) ∧
      (s.trial_id_to_object_id tid).isSome = true := by
    intro tid tr1 h1
    obtain ⟨tr0, hlook0, hcase⟩ := hts1_char tid tr1 h1
    have hmem0 : (tid, tr0) ∈ s.trials := mem_of_lookupTr hlook0
    obtain ⟨q1, q2, q3⟩ := hpre (tid, tr0) hmem0
    obtain ⟨hnc, _⟩ := htrans (tid, tr0) hmem0
    rcases hcase with h | ⟨hrun0, res, h⟩
    · by_cases hterm : tr0.status = Status.terminated ∨
          tr0.status = Status.error
      · refine ⟨q2 hterm, ?_, q1 hnc⟩
        intro h1' h2'
        rw [h] at h1' h2'
        exact absurd hterm (by rintro (hx | hx) <;> [exact h1' hx; exact h2' hx])
      · push_neg at hterm
        obtain ⟨e, he, hact⟩ := q3 hnc hterm.1 hterm.2
        exact ⟨by rw [he]; rfl, fun _ _ => ⟨e, he, hact⟩, q1 hnc⟩
    · obtain ⟨e, he, hact⟩ := q3 (by rw [hrun0]; simp) (by rw [hrun0]; simp)
        (by rw [hrun0]; simp)
      exact ⟨by rw [he]; rfl, fun _ _ => ⟨e, he, hact⟩,
        q1 (by rw [hrun0]; simp)⟩
  -- step 3: the admission budget computes
  obtain ⟨budget, hbud_eq⟩ : ∃ b,
      (if env.debug = true then (pure (debugBudget ts1) : Except RunError Nat)
       else nonDebugBudget o.availCpu o.availGpu n_cpus n_gpus) =
        Except.ok b := by
    cases henv : env.debug
    · have hpos : 0 < n_cpus := by
        rcases hbud with h | h
        · rw [henv] at h; cases h
        · exact h
      have hnz : ¬ n_cpus = 0 := by omega
      by_cases hg : n_gpus ≠ 0
      · exact ⟨min (o.availCpu.getD 0 / n_cpus) (o.availGpu.getD 0 / n_gpus),
          by simp [henv, nonDebugBudget, hnz, hg]⟩
      · exact ⟨o.availCpu.getD 0 / n_cpus,
          by simp [henv, nonDebugBudget, hnz, hg]⟩
    · exact ⟨debugBudget ts1, by simp [henv]; rfl⟩
  -- step 4: the algorithm's update
  obtain ⟨hknd2, hnew, hold, hkeep⟩ := hupd ts1 budget hknd1
  -- step 5: preconditions of the transition pass over the updated trials
  have hA2 : AuxInv (o.update ts1 budget)
      (s.running.filter (fun oid => !(o.fin oid))) s.nextOid
      s.object_id_to_trial_id := by
    refine ⟨hrun1_nd, fun oid h => hfresh oid (hrun1_sub oid h), ?_,
      fun o1 h1 o2 h2 => hinj o1 (hrun1_sub o1 h1) o2 (hrun1_sub o2 h2)⟩
    intro oid hoid
    obtain ⟨tid, tr, ho2t, hlook, hrun⟩ := hmapped oid (hrun1_sub oid hoid)
    have huntouched : ∀ oid' ∈ s.running.filter o.fin,
        s.object_id_to_trial_id oid' ≠ some tid := by
      intro oid' hoid' hcontr
      have : oid' = oid := hinj oid' (hfin_sub oid' hoid') oid
        (hrun1_sub oid hoid) (by rw [hcontr, ho2t])
      exact hdisjoint oid hoid (this ▸ hoid')
    have hl1 : lookupTr ts1 tid = some tr := by
      rw [hframe_rec tid huntouched]; exact hlook
    have hsome2 := hkeep tid tr hl1 hrun
    obtain ⟨tr2, hl2⟩ := Option.isSome_iff_exists.mp hsome2
    obtain ⟨hrr, _, _⟩ := hold tid tr tr2 hl1 hl2
    exact ⟨tid, tr2, ho2t, hl2, hrr hrun⟩
  have hpre2 : ∀ p ∈ o.update ts1 budget,
      PreCond s.state s.trial_id_to_object_id p := by
    intro p hp
    have hl2 : lookupTr (o.update ts1 budget) p.1 = some p.2 :=
      lookupTr_of_mem hknd2 (by rwa [← Prod.mk.eta (p := p)] at hp)
    cases hl1 : lookupTr ts1 p.1 with
    | none =>
      have hcre : p.2.status = Status.created := hnew p.1 p.2 hl2 hl1
      refine ⟨fun hx => absurd hcre hx, ?_, fun hx _ _ => absurd hcre hx⟩
      rintro (hx | hx) <;> rw [hcre] at hx <;> cases hx
    | some tr1 =>
      obtain ⟨hsome_state, hactor, hsome_t2o⟩ := hstate1 p.1 tr1 hl1
      obtain ⟨_, hterm, herr⟩ := hold p.1 tr1 p.2 hl1 hl2
      refine ⟨fun _ => hsome_t2o, fun _ => hsome_state, ?_⟩
      intro _ h2 h3
      refine hactor ?_ ?_
      · intro hx
        exact h2 (hterm hx)
      · intro hx
        exact h3 (herr hx)
  -- the transition pass
  obtain ⟨out, aux', heq3, hkeys3, hpost3, hA3, hstate3, ht2o3, _, _⟩ :=
    applyT_spec schema0 (o.update ts1 budget) []
      { state := s.state
        object_id_to_trial_id := s.object_id_to_trial_id
        trial_id_to_object_id := s.trial_id_to_object_id
        running := s.running.filter (fun oid => !(o.fin oid))
        nextOid := s.nextOid }
      (by simpa using hknd2) (by simpa using hA2) hpre2
  refine ⟨{ trials := out
            state := aux'.state
            object_id_to_trial_id := aux'.object_id_to_trial_id
            trial_id_to_object_id := aux'.trial_id_to_object_id
            running := aux'.running
            warnings := ws1
            nextOid := aux'.nextOid }, ?_, ?_, ?_, ?_, ?_⟩
  · cases henv2 : env.debug
    · rw [henv2] at hbud_eq
      simp at hbud_eq
      simp [loopBody, heq_rec, henv2, hbud_eq, heq3, Except.bind, Bind.bind,
        pure, Except.pure]
    · rw [henv2] at hbud_eq
      have hb : debugBudget ts1 = budget := by
        have h2 : (Except.ok (debugBudget ts1) : Except RunError Nat) =
            Except.ok budget := hbud_eq
        injection h2
      subst hb
      simp [loopBody, heq_rec, henv2, heq3, Except.bind, Bind.bind, pure,
        Except.pure]
  · rw [hkeys3]
    exact hknd2
  · simpa using hA3
  · intro q hq
    obtain ⟨p2, _, _, hps, _⟩ := hpost3 q hq
    rw [hps]
    exact postOfStatus_not_transient _
  · intro q hq
    refine ⟨fun _ => ht2o3 q hq, fun _ => ?_, fun _ h2 h3 => ?_⟩
    · obtain ⟨e, he, _⟩ := hstate3 q hq
      show (aux'.state q.1).isSome = true
      rw [he]; rfl
    · obtain ⟨e, he, hact⟩ := hstate3 q hq
      exact ⟨e, he, hact h2 h3⟩

/-- C8: at every scheduler iteration boundary, the outstanding-operation set
contains at most one operation per trial id, and every outstanding operation
points at a RUNNING trial (so a trial with an outstanding operation stays
RUNNING until that operation completes and is removed by `ray.wait`).  This
invariant (part of `SchedInv`, via `AuxInv`) holds at the initial state and
is preserved by every loop iteration under the algorithm contract
(`AlgoStep`); moreover a `step()` dispatch (growing `running`) happens only
for trials that are RESUMING after the CREATED handling — for a trial
arriving in any other status, `processTrial` leaves `running` unchanged. -/
theorem C8_at_most_one_outstanding (env : EnvR) (n_cpus n_gpus : Nat)
    (schema0 : Schema) (o : IterOracle)
    (hbud : env.debug = true ∨ 0 < n_cpus)
    (hupd : ∀ ts b, (ts.map (·.1)).Nodup → AlgoStep ts (o.update ts b)) :
    (∀ s, SchedInv s →
      ∃ s', loopBody env n_cpus n_gpus schema0 o s = Except.ok s' ∧
        SchedInv s') ∧
    SchedInv initState ∧
    (∀ (aux : LoopAux) (tid : TrialId) (tr tr' : Trial) (aux' : LoopAux),
      tr.is_resuming = false → tr.is_created = false →
      processTrial schema0 aux tid tr = Except.ok (tr', aux') →
      aux'.running = aux.running) := by
  refine ⟨fun s hs => loopBody_inv env n_cpus n_gpus schema0 o s hbud hupd hs,
    ⟨by simp [initState], by simp [AuxInv, initState], by simp [initState],
      by simp [initState]⟩, ?_⟩
  intro aux tid tr tr' aux' hres hcre heq
  cases h : tr.status
  case created => simp [Trial.is_created, h] at hcre
  case resuming => simp [Trial.is_resuming, h] at hres
  case paused =>
    simp [processTrial, Trial.is_paused, h] at heq
    rw [← heq.2]
  case running =>
    simp [processTrial, Trial.is_paused, Trial.is_running, h] at heq
    rw [← heq.2]
  case hasResult =>
    simp [processTrial, Trial.is_paused, Trial.is_running, Trial.is_error,
      Trial.is_terminated, Trial.is_created, Trial.is_resuming, h] at heq
    rw [← heq.2]
  case terminated =>
    cases hst : aux.state tid with
    | none =>
      simp [processTrial, Trial.is_paused, Trial.is_running, Trial.is_error,
        Trial.is_terminated, h, hst] at heq
    | some e =>
      by_cases hact : e.actor.isSome = true
      · simp [processTrial, Trial.is_paused, Trial.is_running, Trial.is_error,
          Trial.is_terminated, h, hst, hact] at heq
        rw [← heq.2]
      · simp [processTrial, Trial.is_paused, Trial.is_running, Trial.is_error,
          Trial.is_terminated, h, hst, hact] at heq
        rw [← heq.2]
  case error =>
    cases hst : aux.state tid with
    | none =>
      simp [processTrial, Trial.is_paused, Trial.is_running, Trial.is_error,
        h, hst] at heq
    | some e =>
      by_cases hact : e.actor.isSome = true
      · simp [processTrial, Trial.is_paused, Trial.is_running, Trial.is_error,
          h, hst, hact] at heq
        rw [← heq.2]
      · simp [processTrial, Trial.is_paused, Trial.is_running, Trial.is_error,
          h, hst, hact] at heq
        rw [← heq.2]

/-- The identity-algorithm oracle used by the C8 witness. -/
def oW : IterOracle :=
  { done := false
    fin := fun _ => false
    results := fun _ => Except.error 0
    availCpu := none
    availGpu := none
    update := fun ts _ => ts }

/-- C8 witness: the theorem applied in debug mode with the identity
algorithm, which satisfies the contract. -/
theorem C8_at_most_one_outstanding_witness :
    ((EnvR.mk true).debug = true ∨ 0 < 1) ∧
    (∀ ts b, (ts.map (·.1)).Nodup → AlgoStep ts (oW.update ts b)) ∧
    ((∀ s, SchedInv s →
      ∃ s', loopBody (EnvR.mk true) 1 0 (Schema.mk [] none) oW s =
        Except.ok s' ∧ SchedInv s') ∧
    SchedInv initState ∧
    (∀ (aux : LoopAux) (tid : TrialId) (tr tr' : Trial) (aux' : LoopAux),
      tr.is_resuming = false → tr.is_created = false →
      processTrial (Schema.mk [] none) aux tid tr = Except.ok (tr', aux') →
      aux'.running = aux.running)) := by
  have hupd : ∀ ts b, ((ts : List (TrialId × Trial)).map (·.1)).Nodup →
      AlgoStep ts (oW.update ts b) := by
    intro ts b hnd
    refine ⟨hnd, ?_, ?_, ?_⟩
    · intro tid tr' h1 h2
      have h1' : lookupTr ts tid = some tr' := h1
      rw [h1'] at h2
      cases h2
    · intro tid tr tr' h1 h2
      have heq : tr = tr' := Option.some_injective _ (h1.symm.trans h2)
      subst heq
      exact ⟨id, id, id⟩
    · intro tid tr h1 _
      show (lookupTr ts tid).isSome = true
      rw [h1]
      rfl
  exact ⟨Or.inl rfl, hupd,
    C8_at_most_one_outstanding (EnvR.mk true) 1 0 (Schema.mk [] none) oW
      (Or.inl rfl) hupd⟩
